import Mathlib

/-!
Shallow embedding of the SpooqW pipeline-configuration processor
(`src/lib/yaml-utils.ts`): the serializer `stepsToYaml`, the parser
`parseYamlSteps` / `parseStepBlock`, metadata extraction
`extractPipelineMetadata`, merge `mergeStepsIntoYaml` and the validator
`validateYaml`, together with theorems settling the frozen claims C1-C10.

Modelling conventions:
* JS strings are Lean `String` / `List Char`.  Optional (`?:`) fields of the
  TS `Step` interface become `Option` fields; JS truthiness of a string field
  (`if (step.x)`) is modelled as `some v` with `v ≠ ""`, and
  `x !== undefined` as `Option.isSome`.
* Each JS regular expression used by the source is embedded as an explicit
  scanning function reproducing the exact leftmost-match, greedy/lazy and
  backtracking behaviour of that particular pattern (documented at each
  definition).  The JS `\s` class is modelled by its ASCII members; the
  inputs of interest are ASCII.
* `Step.position` (presentation-only 2D coordinate of the TS interface) is
  omitted: `yaml-utils.ts` never reads or writes it and no claim needs it.
* All definitions are executable; concrete claims are settled by kernel
  evaluation (`rfl` / `decide`).
-/

namespace SpooqW

/-- ASCII members of the JS `\s` character class. -/
def wsChar (c : Char) : Bool :=
  c == ' ' || c == '\t' || c == '\n' || c == '\r' || c == '\x0b' || c == '\x0c'

/-- ASCII letter, the JS class `[a-zA-Z]`. -/
def asciiLetter (c : Char) : Bool :=
  ('a' ≤ c && c ≤ 'z') || ('A' ≤ c && c ≤ 'Z')

/-- The JS class `[a-zA-Z_]` used for option keys. -/
def alphaUnd (c : Char) : Bool :=
  asciiLetter c || c == '_'

/-- JS `String.prototype.trim()`: strip leading and trailing whitespace. -/
def jsTrim (l : List Char) : List Char :=
  ((l.dropWhile wsChar).reverse.dropWhile wsChar).reverse

/-- JS `"...".split('\n')` (always returns at least one piece). -/
def splitNl : List Char → List (List Char)
  | [] => [[]]
  | c :: rest =>
    if c = '\n' then [] :: splitNl rest
    else
      match splitNl rest with
      | h :: t => (c :: h) :: t
      | [] => [[c]]

/-- JS `array.join('\n')`. -/
def joinNl : List (List Char) → List Char
  | [] => []
  | [l] => l
  | l :: ls => l ++ '\n' :: joinNl ls

/-- JS `hay.includes(pat)`: `pat` occurs as a contiguous substring of `hay`. -/
def containsSub : List Char → List Char → Bool
  | [], pat => pat.isPrefixOf ([] : List Char)
  | hay@(_ :: rest), pat => pat.isPrefixOf hay || containsSub rest pat

/-- One node of the pipeline graph, mirroring the TS `Step` interface
(`src/types/index.ts`).  `show` is quoted because it is a Lean keyword. -/
structure Step where
  id : String
  kind : String
  shortDesc : Option String := none
  desc : Option String := none
  format : Option String := none
  sql : Option String := none
  path : Option String := none
  source : Option String := none
  options : Option (List (String × String)) := none
  schema : Option String := none
  cache : Option Bool := none
  «show» : Option Bool := none
  dependsOn : Option (List String) := none
deriving DecidableEq

/-- JS truthiness of an optional string field. -/
def truthyS : Option String → Bool
  | none => false
  | some v => v != ""

/-- JS `x || dflt` for an optional string (used for the pipeline id default). -/
def defaultIfFalsy (o : Option String) (dflt : String) : String :=
  match o with
  | some v => if v != "" then v else dflt
  | none => dflt

/-- One `if (step.x) lines.push(`    x: ...`)` of the serializer: a single
inline attribute line, emitted only when the optional value is truthy. -/
def optLine (key : String) (o : Option String) : List String :=
  match o with
  | some v => if v != "" then ["    " ++ key ++ ": " ++ v] else []
  | none => []

/-- The `sql` emission (source lines 39-50): block scalar when the value
contains a newline, inline otherwise. -/
def sqlSeg (o : Option String) : List String :=
  match o with
  | some v =>
    if v != "" then
      if v.data.contains '\n' then
        ["    sql: |"] ++ (splitNl v.data).map (fun l => "      " ++ String.mk l)
      else
        ["    sql: " ++ v]
    else []
  | none => []

/-- A boolean attribute line (`cache`, `show`; source lines 52-58), emitted
whenever the value is defined. -/
def boolLine (key : String) (o : Option Bool) : List String :=
  match o with
  | some b => ["    " ++ key ++ ": " ++ (if b then "true" else "false")]
  | none => []

/-- The `options` nested-mapping block (source lines 64-69). -/
def optionsSeg (o : Option (List (String × String))) : List String :=
  match o with
  | some l =>
    if l.isEmpty then []
    else ["    options:"] ++ l.map (fun p => "      " ++ p.1 ++ ": " ++ p.2)
  | none => []

/-- The `dependsOn` nested-sequence block (source lines 71-76). -/
def dependsOnSeg (o : Option (List String)) : List String :=
  match o with
  | some l =>
    if l.isEmpty then []
    else ["    dependsOn:"] ++ l.map (fun d => "      - " ++ d)
  | none => []

/-- Lines pushed by the serializer's per-step loop (`stepsToYaml`, source
lines 19-76), in the source's order and with the source's formatting. -/
def stepLines (s : Step) : List String :=
  ["  - id: " ++ s.id, "    kind: " ++ s.kind]
  ++ optLine "shortDesc" s.shortDesc
  ++ optLine "source" s.source
  ++ optLine "format" s.format
  ++ optLine "path" s.path
  ++ sqlSeg s.sql
  ++ boolLine "cache" s.cache
  ++ boolLine "show" s.«show»
  ++ optLine "schema" s.schema
  ++ optionsSeg s.options
  ++ dependsOnSeg s.dependsOn

/-- The serializer's `lines` array (source lines 9-80): header (`id:` line,
optional `desc:` line, blank line, `steps:`), then each step's lines
followed by a blank separator line. -/
def allLines (steps : List Step) (pipelineId pipelineDesc : Option String) : List String :=
  (["id: " ++ defaultIfFalsy pipelineId "my-pipeline"]
   ++ (match pipelineDesc with
       | some d => if d != "" then ["desc: " ++ d] else []
       | none => [])
   ++ ["", "steps:"])
  ++ (steps.map (fun s => stepLines s ++ [""])).flatten

/-- `stepsToYaml(steps, pipelineId?, pipelineDesc?)` (source lines 8-83):
the lines array joined with `\n` and trimmed. -/
def stepsToYaml (steps : List Step) (pipelineId pipelineDesc : Option String) : String :=
  String.mk (jsTrim (joinNl ((allLines steps pipelineId pipelineDesc).map String.data)))

/-! ### Parser: embeddings of the individual regular expressions

Each scanner reproduces the JS engine's behaviour on the specific pattern:
the engine tries every start position from the left; at a given position the
pattern either matches deterministically (greedy `\s*`/`\s+` runs followed by
a non-whitespace literal leave no backtracking freedom) or fails, except for
the documented lazy captures and end-of-input backtracking of `\s*` before
`[^\n]+`. -/

/-- Index of the last `'\n'` in `w`, if any. -/
def lastNlIdx (w : List Char) : Option Nat :=
  let t := w.reverse.takeWhile (fun c => c != '\n')
  if t.length = w.length then none else some (w.length - t.length - 1)

/-- Index of the last character of `w` that is not `'\n'`, if any. -/
def lastNonNlIdx (w : List Char) : Option Nat :=
  let t := w.reverse.takeWhile (fun c => c == '\n')
  if t.length = w.length then none else some (w.length - t.length - 1)

/-- `\s*([^\n]+)` at a fixed position: greedy whitespace run, then a nonempty
run of non-newline characters; if the whitespace run reaches the end of
input, the engine backtracks `\s*` to the last non-`'\n'` whitespace
character (which `[^\n]+` can then consume).  Returns
`(consumed whitespace, capture, rest)`. -/
def valCaptureC (u : List Char) : Option (List Char × List Char × List Char) :=
  let w := u.takeWhile wsChar
  let r := u.drop w.length
  if r.isEmpty then
    match lastNonNlIdx w with
    | some k =>
      let v := (u.drop k).takeWhile (fun c => c != '\n')
      some (u.take k, v, u.drop (k + v.length))
    | none => none
  else
    let v := r.takeWhile (fun c => c != '\n')
    some (w, v, u.drop (w.length + v.length))

/-- Capture of `\s*([^\n]+)` at a fixed position. -/
def valCapture (u : List Char) : Option (List Char) :=
  (valCaptureC u).map (fun t => t.2.1)

/-- `block.match(/key\s*([^\s\n]+)/)`-style search (for `id:`, `kind:`,
`format:`, `source:`): leftmost occurrence of the literal `key` followed by
optional whitespace and at least one non-whitespace character; the capture
is the maximal non-whitespace run. -/
def findToken (key : List Char) : List Char → Option (List Char)
  | [] => none
  | l@(_ :: rest) =>
    if key.isPrefixOf l then
      let t := (l.drop key.length).dropWhile wsChar
      if t.isEmpty then findToken key rest
      else some (t.takeWhile (fun c => !(wsChar c)))
    else findToken key rest

/-- `block.match(/key\s*([^\n]+)/)`-style search (for `shortDesc:`, `desc:`,
`path:`, `schema:` and inline `sql:`). -/
def findVal (key : List Char) : List Char → Option (List Char)
  | [] => none
  | l@(_ :: rest) =>
    if key.isPrefixOf l then
      match valCapture (l.drop key.length) with
      | some v => some v
      | none => findVal key rest
    else findVal key rest

/-- `block.match(/key\s*(true|false)/)` (for `cache:`, `show:`): after the
greedy whitespace run the literal `true` or `false` must follow (a shorter
whitespace run would leave a whitespace character where `t`/`f` is needed). -/
def findBool (key : List Char) : List Char → Option Bool
  | [] => none
  | l@(_ :: rest) =>
    if key.isPrefixOf l then
      let t := (l.drop key.length).dropWhile wsChar
      if "true".data.isPrefixOf t then some true
      else if "false".data.isPrefixOf t then some false
      else findBool key rest
    else findBool key rest

/-- Lazy capture `([\s\S]*?)(?=\n[a-zA-Z]|$)` of the `steps:` section
regex: stop at the first position where a newline is immediately followed
by an ASCII letter (a column-0 top-level key), or at the end of input. -/
def lazyCaptureSteps : List Char → List Char
  | [] => []
  | c :: rest =>
    if c == '\n' && (match rest.head? with
                     | some d => asciiLetter d
                     | none => false) then []
    else c :: lazyCaptureSteps rest

/-- `yaml.match(/steps:\s*\n([\s\S]*?)(?=\n[a-zA-Z]|$)/)` (source line 91):
leftmost `steps:` occurrence after which the greedy-then-backtracked
`\s*\n` consumes up to the last newline of the following whitespace run;
the capture is lazy. -/
def findStepsContent : List Char → Option (List Char)
  | [] => none
  | l@(_ :: rest) =>
    if "steps:".data.isPrefixOf l then
      let u := l.drop 6
      match lastNlIdx (u.takeWhile wsChar) with
      | some k => some (lazyCaptureSteps (u.drop (k + 1)))
      | none => findStepsContent rest
    else findStepsContent rest

/-- Lazy capture stop condition of the multi-line `sql` regex
`(?=\n\s*[a-zA-Z]|$)`: a newline followed (after any whitespace, possibly
spanning further newlines) by an ASCII letter. -/
def lazyCaptureSql : List Char → List Char
  | [] => []
  | c :: rest =>
    if c == '\n' && (match (rest.dropWhile wsChar).head? with
                     | some d => asciiLetter d
                     | none => false) then []
    else c :: lazyCaptureSql rest

/-- `block.match(/sql:\s*\|\s*\n([\s\S]*?)(?=\n\s*[a-zA-Z]|$)/)` (source
line 146). -/
def findSqlPipe : List Char → Option (List Char)
  | [] => none
  | l@(_ :: rest) =>
    if "sql:".data.isPrefixOf l then
      match (l.drop 4).dropWhile wsChar with
      | '|' :: v =>
        match lastNlIdx (v.takeWhile wsChar) with
        | some k => some (lazyCaptureSql (v.drop (k + 1)))
        | none => findSqlPipe rest
      | _ => findSqlPipe rest
    else findSqlPipe rest

/-- `line.replace(/^\s{6}/, '')` (source line 149): drop the first six
characters when they are all whitespace. -/
def stripSix (l : List Char) : List Char :=
  if (l.take 6).length == 6 && (l.take 6).all wsChar then l.drop 6 else l

/-- The split separator `/\n\s*-\s+(?=id:)/` (source line 97) matched at the
head of `l`: a newline, the full following whitespace run, `-`, a nonempty
whitespace run, with `id:` next (the lookahead keeps `id:` in the chunk).
Returns the remainder starting at `id:`. -/
def sepMatch (l : List Char) : Option (List Char) :=
  match l with
  | '\n' :: rest =>
    match rest.dropWhile wsChar with
    | '-' :: r2 =>
      let w2 := r2.takeWhile wsChar
      if w2.isEmpty then none
      else if "id:".data.isPrefixOf (r2.drop w2.length) then some (r2.drop w2.length)
      else none
    | _ => none
  | _ => none

/-- `stepsContent.split(/\n\s*-\s+(?=id:)/)`: scan left to right, cutting at
each separator match.  The fuel (initially `length + 1`) strictly exceeds
the number of scanning steps, since every step consumes at least one
character. -/
def splitStepsAux : Nat → List Char → List Char → List (List Char)
  | 0, l, acc => [acc.reverse ++ l]
  | _ + 1, [], acc => [acc.reverse]
  | fuel + 1, l@(c :: rest), acc =>
    match sepMatch l with
    | some r => acc.reverse :: splitStepsAux fuel r []
    | none => splitStepsAux fuel rest (c :: acc)

/-- The split followed by `.filter(Boolean)` (source line 97). -/
def splitSteps (content : List Char) : List (List Char) :=
  (splitStepsAux (content.length + 1) content []).filter (fun b => !b.isEmpty)

/-- One iteration `\s+[a-zA-Z_]+:\s*[^\n]+\n?` of the `options:` block
regex (source line 157); returns `(consumed, rest)`. -/
def optIter (u : List Char) : Option (List Char × List Char) :=
  let w := u.takeWhile wsChar
  if w.isEmpty then none
  else
    let r1 := u.drop w.length
    let name := r1.takeWhile alphaUnd
    if name.isEmpty then none
    else
      match r1.drop name.length with
      | ':' :: r3 =>
        match valCaptureC r3 with
        | some (ws2, v, r4) =>
          match r4 with
          | '\n' :: r5 => some (w ++ name ++ ':' :: (ws2 ++ v ++ ['\n']), r5)
          | _ => some (w ++ name ++ ':' :: (ws2 ++ v), r4)
        | none => none
      | _ => none

/-- One iteration `\s+-\s*[^\n]+\n?` of the `dependsOn:` block regex
(source line 170); returns `(consumed, rest)`. -/
def depIter (u : List Char) : Option (List Char × List Char) :=
  let w := u.takeWhile wsChar
  if w.isEmpty then none
  else
    match u.drop w.length with
    | '-' :: r2 =>
      match valCaptureC r2 with
      | some (ws2, v, r3) =>
        match r3 with
        | '\n' :: r4 => some (w ++ '-' :: (ws2 ++ v ++ ['\n']), r4)
        | _ => some (w ++ '-' :: (ws2 ++ v), r3)
      | none => none
    | _ => none

/-- Greedy repetition of `iter` (zero or more further iterations); each
successful iteration consumes at least one character, so fuel
`length + 1` is never exhausted. -/
def iterMore (iter : List Char → Option (List Char × List Char)) :
    Nat → List Char → List Char
  | 0, _ => []
  | fuel + 1, u =>
    match iter u with
    | none => []
    | some (c, r) => c ++ iterMore iter fuel r

/-- The capture `((?:iter)+)`: at least one iteration, then greedily as many
as possible. -/
def iterGroup (iter : List Char → Option (List Char × List Char))
    (u : List Char) : Option (List Char) :=
  match iter u with
  | none => none
  | some (c, r) => some (c ++ iterMore iter (r.length + 1) r)

/-- Indices of `'\n'` within `w`, largest first: the candidate split points
of `\s*\n` in greedy backtracking order. -/
def nlIndicesDesc (w : List Char) : List Nat :=
  ((List.range w.length).filter (fun k => w[k]? == some '\n')).reverse

/-- Try each candidate newline split in backtracking order. -/
def tryNlSplits (iter : List Char → Option (List Char × List Char))
    (u : List Char) : List Nat → Option (List Char)
  | [] => none
  | k :: ks =>
    match iterGroup iter (u.drop (k + 1)) with
    | some cap => some cap
    | none => tryNlSplits iter u ks

/-- `block.match(/key\s*\n((?:iter)+)/)`-style search used for the
`options:` and `dependsOn:` nested blocks. -/
def findBlockCapture (key : List Char)
    (iter : List Char → Option (List Char × List Char)) :
    List Char → Option (List Char)
  | [] => none
  | l@(_ :: rest) =>
    if key.isPrefixOf l then
      let u := l.drop key.length
      match tryNlSplits iter u (nlIndicesDesc (u.takeWhile wsChar)) with
      | some cap => some cap
      | none => findBlockCapture key iter rest
    else findBlockCapture key iter rest

/-- `line.match(/\s*([a-zA-Z_]+):\s*(.+)/)` applied to a newline-free line
(source line 162); returns `(key, raw value)`. -/
def optLineMatch : List Char → Option (List Char × List Char)
  | [] => none
  | l@(_ :: rest) =>
    let r1 := l.dropWhile wsChar
    let name := r1.takeWhile alphaUnd
    if name.isEmpty then optLineMatch rest
    else
      match r1.drop name.length with
      | ':' :: r3 =>
        match valCapture r3 with
        | some v => some (name, v)
        | none => optLineMatch rest
      | _ => optLineMatch rest

/-- `line.match(/\s*-\s*(.+)/)` applied to a newline-free line (source
line 175). -/
def depLineMatch : List Char → Option (List Char)
  | [] => none
  | l@(_ :: rest) =>
    match l.dropWhile wsChar with
    | '-' :: r2 =>
      match valCapture r2 with
      | some v => some v
      | none => depLineMatch rest
    | _ => depLineMatch rest

/-- JS object assignment `obj[k] = v`: replace in place when the key exists
(keeping its position), otherwise append. -/
def setOpt (l : List (String × String)) (k v : String) : List (String × String) :=
  if l.any (fun p => p.1 == k) then
    l.map (fun p => if p.1 == k then (k, v) else p)
  else l ++ [(k, v)]

/-- The `options` extraction of `parseStepBlock` (source lines 157-167). -/
def parseOptions (block : List Char) : Option (List (String × String)) :=
  (findBlockCapture "options:".data optIter block).map (fun cap =>
    ((splitNl (jsTrim cap)).filterMap optLineMatch).foldl
      (fun acc kv => setOpt acc (String.mk kv.1) (String.mk (jsTrim kv.2))) [])

/-- The `dependsOn` extraction of `parseStepBlock` (source lines 170-180). -/
def parseDependsOn (block : List Char) : Option (List String) :=
  (findBlockCapture "dependsOn:".data depIter block).map (fun cap =>
    (splitNl (jsTrim cap)).filterMap (fun line =>
      (depLineMatch line).map (fun v => String.mk (jsTrim v))))

/-- `parseStepBlock(block)` (source lines 109-183): a chunk yields a step
only when both an `id` and a `kind` token are found; all other attributes
are extracted independently by their patterns. -/
def parseStepBlock (block : List Char) : Option Step :=
  match findToken "id:".data block, findToken "kind:".data block with
  | some i, some k =>
    some { id := String.mk i
           kind := String.mk k
           shortDesc := (findVal "shortDesc:".data block).map (fun v => String.mk (jsTrim v))
           desc := (findVal "desc:".data block).map (fun v => String.mk (jsTrim v))
           format := (findToken "format:".data block).map String.mk
           source := (findToken "source:".data block).map String.mk
           path := (findVal "path:".data block).map (fun v => String.mk (jsTrim v))
           schema := (findVal "schema:".data block).map (fun v => String.mk (jsTrim v))
           cache := findBool "cache:".data block
           «show» := findBool "show:".data block
           sql :=
             match findSqlPipe block with
             | some cap => some (String.mk (jsTrim (joinNl ((splitNl cap).map stripSix))))
             | none => (findVal "sql:".data block).map (fun v => String.mk (jsTrim v))
           options := parseOptions block
           dependsOn := parseDependsOn block }
  | _, _ => none

/-- The per-step chunks of a document: the captured `steps:` section split
at sequence-entry boundaries (empty pieces dropped). -/
def stepChunks (yaml : List Char) : List (List Char) :=
  match findStepsContent yaml with
  | none => []
  | some content => splitSteps content

/-- `parseYamlSteps(yaml)` (source lines 89-107): chunks whose block fails
to yield a step (missing `id` or `kind`) are silently dropped. -/
def parseYamlSteps (yaml : String) : List Step :=
  (stepChunks yaml.data).filterMap parseStepBlock

/-- Result of `extractPipelineMetadata` (source lines 188-196). -/
structure PipelineMetadata where
  id : Option String
  desc : Option String
deriving DecidableEq

/-- `/^key\s*([^\n]+)/m`-style search for the metadata lines: only positions
at the start of a line (start of input or just after `'\n'`) are eligible. -/
def findMetaVal (key : List Char) : List Char → Bool → Option (List Char)
  | [], _ => none
  | l@(c :: rest), atStart =>
    if atStart && key.isPrefixOf l then
      match valCapture (l.drop key.length) with
      | some v => some v
      | none => findMetaVal key rest (c == '\n')
    else findMetaVal key rest (c == '\n')

/-- `extractPipelineMetadata(yaml)` (source lines 188-196). -/
def extractPipelineMetadata (yaml : String) : PipelineMetadata :=
  { id := (findMetaVal "id:".data yaml.data true).map (fun v => String.mk (jsTrim v))
    desc := (findMetaVal "desc:".data yaml.data true).map (fun v => String.mk (jsTrim v)) }

/-- `mergeStepsIntoYaml(existingYaml, steps)` (source lines 201-204). -/
def mergeStepsIntoYaml (existingYaml : String) (steps : List Step) : String :=
  let metadata := extractPipelineMetadata existingYaml
  stepsToYaml steps metadata.id metadata.desc

/-! ### Validator (`validateYaml`, source lines 209-265) -/

/-- The fixed enumeration of valid step kinds (source lines 228-231). -/
def validKinds : List String :=
  ["input", "input-stream", "sql", "variable", "script",
   "custom", "customInput", "avro-serde", "udf", "output", "output-stream", "parse-json"]

/-- Error message of the missing-`id` structural check. -/
def pipeIdMsg : String := "Pipeline must have an 'id' field"

/-- Error message of the missing-`steps:`-section structural check. -/
def pipeStepsMsg : String := "Pipeline must have a 'steps' section"

/-- Error message of the at-least-one-step check. -/
def pipeMinMsg : String := "Pipeline must have at least one step"

/-- Error message of the duplicate-id check. -/
def dupMsg (i : String) : String := "Duplicate step ID: '" ++ i ++ "'"

/-- Error message of the invalid-kind check. -/
def kindMsg (k i : String) : String :=
  "Invalid step kind '" ++ k ++ "' in step '" ++ i ++ "'"

/-- Error message of the missing-format advisory check. -/
def fmtMsg (i k : String) : String :=
  "Step '" ++ i ++ "' of kind '" ++ k ++ "' should specify a format"

/-- Error message of the unknown-source check. -/
def srcMsg (i src : String) : String :=
  "Step '" ++ i ++ "' references unknown source '" ++ src ++ "'"

/-- `/^id:\s*\S+/m`: some line starts with `id:` followed by optional
whitespace (possibly spanning newlines) and a non-whitespace character. -/
def hasIdLineAux : List Char → Bool → Bool
  | [], _ => false
  | l@(c :: rest), atStart =>
    if atStart && "id:".data.isPrefixOf l
        && !((l.drop 3).dropWhile wsChar).isEmpty then true
    else hasIdLineAux rest (c == '\n')

/-- The duplicate-id check of one loop iteration (source lines 236-238). -/
def dupCheck (seen : List String) (s : Step) : List String :=
  if seen.contains s.id then [dupMsg s.id] else []

/-- `stepIds.add(step.id)` (source line 239): JS `Set` insertion. -/
def addSeen (seen : List String) (s : Step) : List String :=
  if seen.contains s.id then seen else seen ++ [s.id]

/-- The invalid-kind check (source lines 242-244). -/
def kindCheck (s : Step) : List String :=
  if validKinds.contains s.kind then [] else [kindMsg s.kind s.id]

/-- The missing-format advisory check (source lines 247-249). -/
def fmtCheck (s : Step) : List String :=
  if (s.kind == "input" || s.kind == "output") && !(truthyS s.format) then
    [fmtMsg s.id s.kind]
  else []

/-- The unknown-source check (source lines 252-258): the outer condition is
JS `step.source && !stepIds.has(step.source) && step.source !==
steps.find(s => s.id === step.source)?.id`; the inner `steps.some` check
emits the error.  `seen` here is the `stepIds` set after the current id was
added. -/
def srcCheck (seen : List String) (all : List Step) (s : Step) : List String :=
  match s.source with
  | none => []
  | some src =>
    if src != "" && !(seen.contains src)
        && (match all.find? (fun t => t.id == src) with
            | some t => src != t.id
            | none => true) then
      if all.any (fun t => t.id == src) then [] else [srcMsg s.id src]
    else []

/-- The validator's per-step loop (source lines 234-259), accumulating
errors in emission order. -/
def stepChecks (all : List Step) : List Step → List String → List String
  | [], _ => []
  | s :: rest, seen =>
    dupCheck seen s ++
      (let seen' := addSeen seen s
       kindCheck s ++ fmtCheck s ++ srcCheck seen' all s ++ stepChecks all rest seen')

/-- Result of `validateYaml`. -/
structure ValidationResult where
  valid : Bool
  errors : List String
deriving DecidableEq

/-- `validateYaml(yaml)` (source lines 209-265). -/
def validateYaml (yaml : String) : ValidationResult :=
  let e1 := if hasIdLineAux yaml.data true then [] else [pipeIdMsg]
  let e2 := if containsSub yaml.data "steps:".data then [] else [pipeStepsMsg]
  let steps := parseYamlSteps yaml
  let e3 := if steps.length == 0 then [pipeMinMsg] else []
  let errs := e1 ++ e2 ++ e3 ++ stepChecks steps steps []
  { valid := errs.isEmpty, errors := errs }

/-- Whitespace-freeness of a string: the shape of the tokens produced by
`findToken` (parsed `id`, `kind`, `format`, `source` values). -/
def wsFree (x : String) : Bool :=
  x.data.all (fun c => !(wsChar c))

/-- Newline-freeness of a string value. -/
def nlFree (x : String) : Bool :=
  x.data.all (fun c => c != '\n')

/-- The attribute key of one line of a serialized step block: a line
indented by exactly four spaces carries a step attribute, whose key is the
text before the first colon. -/
def attrKeyOf (l : List Char) : Option (List Char) :=
  if "    ".data.isPrefixOf l && !("     ".data.isPrefixOf l) then
    some ((l.drop 4).takeWhile (fun c => c != ':'))
  else none

/-- The attribute keys occurring in a step block's text, in line order. -/
def textAttrKeys (t : List Char) : List String :=
  (splitNl t).filterMap (fun l => (attrKeyOf l).map String.mk)

/-- Normal form of an optional scalar attribute: absent, or nonempty and
newline-free (so JS truthiness coincides with presence and the value stays
on its line). -/
def optNorm (o : Option String) : Bool :=
  match o with
  | none => true
  | some v => v != "" && nlFree v

/-- Normal form of the `sql` attribute: nonempty when present (newlines are
allowed - they select the block-scalar form). -/
def sqlNorm (o : Option String) : Bool :=
  match o with
  | none => true
  | some v => v != ""

/-- Normal form of `options`: nonempty with newline-free entries when
present. -/
def optionsNorm (o : Option (List (String × String))) : Bool :=
  match o with
  | none => true
  | some l => !l.isEmpty && l.all (fun p => nlFree p.1 && nlFree p.2)

/-- Normal form of `dependsOn`: nonempty with newline-free entries when
present. -/
def depNorm (o : Option (List String)) : Bool :=
  match o with
  | none => true
  | some l => !l.isEmpty && l.all nlFree

/-- Normal form of a step for the serialization-order claim. -/
def normalizedStep (s : Step) : Bool :=
  nlFree s.id && nlFree s.kind
  && optNorm s.shortDesc && optNorm s.source && optNorm s.format
  && optNorm s.path && optNorm s.schema
  && sqlNorm s.sql && optionsNorm s.options && depNorm s.dependsOn

/-! ### Claims C1-C3: the serialize/parse round-trip

The serializer emits multi-line `sql` as a block scalar, and the parser has
a dedicated `sql: |` branch commented "Multi-line SQL"; but the lazy capture
of `/sql:\s*\|\s*\n([\s\S]*?)(?=\n\s*[a-zA-Z]|$)/` stops at the first
position where a newline is followed (after whitespace) by a letter - which
is already true at the end of the first SQL line, since the second SQL line
is indented text starting with a letter.  Hence only the first line of a
block scalar is ever recovered, and the round-trip properties fail on any
step whose `sql` spans several lines. -/

/-- C1: the claimed structural round-trip `parseYamlSteps (stepsToYaml S) = S`
for step lists whose only embedded newlines are in `sql` fails on the code:
for the single step `{id: q1, kind: sql, sql: "SELECT a\nFROM t1"}` the
re-parsed step carries `sql = "SELECT a"` - the block scalar is truncated to
its first line.  (The code's own "Multi-line SQL" handling and the spec's
"must successfully round-trip every document the Serializer can produce"
show the claim is the intent and the code's lookahead a slip.) -/
theorem C1_roundtrip_fails_on_multiline_sql :
    parseYamlSteps (stepsToYaml
        [{ id := "q1", kind := "sql", sql := some "SELECT a\nFROM t1" }] none none)
      = [{ id := "q1", kind := "sql", sql := some "SELECT a" }]
    ∧ parseYamlSteps (stepsToYaml
        [{ id := "q1", kind := "sql", sql := some "SELECT a\nFROM t1" }] none none)
      ≠ [{ id := "q1", kind := "sql", sql := some "SELECT a\nFROM t1" }] := by
  exact ⟨rfl, by decide⟩

/-- C2: for the step with `sql = "SELECT *\nFROM t\nWHERE x = 1"` the
serializer does emit a literal block scalar (`sql: |` with each SQL line on
its own indented line - first conjuncts), but re-parsing the serialized text
yields `sql = "SELECT *"`, not the identical three-line string (last
conjuncts): the parse half of the claim fails on the code. -/
theorem C2_multiline_sql_block_scalar_truncated_on_reparse :
    stepsToYaml [{ id := "query", kind := "sql", sql := some "SELECT *\nFROM t\nWHERE x = 1" }] none none
      = "id: my-pipeline\n\nsteps:\n  - id: query\n    kind: sql\n    sql: |\n      SELECT *\n      FROM t\n      WHERE x = 1"
    ∧ containsSub (stepsToYaml [{ id := "query", kind := "sql", sql := some "SELECT *\nFROM t\nWHERE x = 1" }] none none).data
        "    sql: |\n      SELECT *\n      FROM t\n      WHERE x = 1".data = true
    ∧ parseYamlSteps (stepsToYaml [{ id := "query", kind := "sql", sql := some "SELECT *\nFROM t\nWHERE x = 1" }] none none)
      = [{ id := "query", kind := "sql", sql := some "SELECT *" }]
    ∧ (some "SELECT *" : Option String) ≠ some "SELECT *\nFROM t\nWHERE x = 1" := by
  refine ⟨rfl, by decide, rfl, by decide⟩

/-- C3: the claimed textual idempotence
`stepsToYaml (parseYamlSteps (stepsToYaml S)) = stepsToYaml S` fails on the
code for the same reason: for `S = [{id: q3, kind: sql, sql: "A\nB"}]` the
first serialization uses a block scalar, the re-parse truncates `sql` to
`"A"`, and the re-serialization emits it inline, producing different text. -/
theorem C3_reserialization_not_idempotent_on_multiline_sql :
    stepsToYaml [{ id := "q3", kind := "sql", sql := some "A\nB" }] none none
      = "id: my-pipeline\n\nsteps:\n  - id: q3\n    kind: sql\n    sql: |\n      A\n      B"
    ∧ stepsToYaml (parseYamlSteps (stepsToYaml
        [{ id := "q3", kind := "sql", sql := some "A\nB" }] none none)) none none
      = "id: my-pipeline\n\nsteps:\n  - id: q3\n    kind: sql\n    sql: A"
    ∧ stepsToYaml (parseYamlSteps (stepsToYaml
        [{ id := "q3", kind := "sql", sql := some "A\nB" }] none none)) none none
      ≠ stepsToYaml [{ id := "q3", kind := "sql", sql := some "A\nB" }] none none := by
  refine ⟨rfl, rfl, by decide⟩

/-! ### Claim C5: accumulation of the three named errors

The three errors named by the claim can never occur together: the
invalid-kind check iterates over the parsed steps, so it can emit an error
only when at least one step parsed - in which case the at-least-one-step
error is not emitted.  The claim's scenario is witnessed by a document with
a missing `id`, a textual step block with an invalid kind that fails to
parse (no `id:` attribute), and hence zero parsed steps: `validateYaml`
returns only the missing-id and at-least-one-step errors. -/

/-- C5 counterexample: the document `"steps:\n  - kind: bogus\n    path: p"`
has no top-level `id`, contains a step block whose kind `bogus` is not a
valid kind, and parses to zero steps; yet the errors array contains exactly
the missing-id and at-least-one-step errors and no invalid-kind error -
refuting the claim that all three corresponding errors appear together. -/
theorem C5_counterexample_three_errors_cannot_cooccur :
    validKinds.contains "bogus" = false
    ∧ containsSub "steps:\n  - kind: bogus\n    path: p".data "- kind: bogus".data = true
    ∧ parseYamlSteps "steps:\n  - kind: bogus\n    path: p" = []
    ∧ (validateYaml "steps:\n  - kind: bogus\n    path: p").errors = [pipeIdMsg, pipeMinMsg]
    ∧ (validateYaml "steps:\n  - kind: bogus\n    path: p").errors.all
        (fun e => !(containsSub e.data "Invalid step kind".data)) = true := by
  refine ⟨rfl, by decide, rfl, rfl, by decide⟩

/-- C5 (amended): validation accumulates every applicable error rather than
failing fast - a document with a missing `id` and zero parsed steps gets the
missing-id and at-least-one-step errors together; a document with a missing
`id` and a parsed step of invalid kind gets the missing-id and invalid-kind
errors together; the empty document gets all three structural errors
together.  (An invalid-kind error cannot co-occur with the
at-least-one-step error, since kind checks run over the parsed steps.) -/
theorem C5_validator_accumulates_all_applicable_errors :
    (validateYaml "steps:\n  - kind: bogus\n    path: p").errors = [pipeIdMsg, pipeMinMsg]
    ∧ (validateYaml "steps:\n  - id: s1\n    kind: bogus").errors
        = [pipeIdMsg, kindMsg "bogus" "s1"]
    ∧ validateYaml "" = { valid := false, errors := [pipeIdMsg, pipeStepsMsg, pipeMinMsg] } := by
  refine ⟨rfl, rfl, rfl⟩

/-! ### Shared string lemmas -/

/-- `String.append` concatenates the underlying character lists. -/
theorem data_append (s t : String) : (s ++ t).data = s.data ++ t.data := rfl

/-- `joinNl` peels one element off a list of at least two. -/
theorem joinNl_cons_cons (x y : List Char) (t : List (List Char)) :
    joinNl (x :: y :: t) = x ++ '\n' :: joinNl (y :: t) := rfl

/-- Trimming a string that starts and ends with non-whitespace characters
(before an arbitrary whitespace-trailing suffix) keeps that leading block
intact: `jsTrim ((x :: A ++ [c]) ++ B)` still starts with `x :: A ++ [c]`. -/
theorem jsTrim_keeps_head (x : Char) (A : List Char) (c : Char) (B : List Char)
    (hx : wsChar x = false) (hc : wsChar c = false) :
    ∃ r, jsTrim ((x :: A ++ [c]) ++ B) = (x :: A ++ [c]) ++ r := by
  have h1 : ((x :: A ++ [c]) ++ B).dropWhile wsChar = (x :: A ++ [c]) ++ B := by
    have : (x :: (A ++ [c] ++ B)).dropWhile wsChar = x :: (A ++ [c] ++ B) :=
      List.dropWhile_cons_of_neg (by simp [hx])
    simpa using this
  have h2 : ((x :: A ++ [c]) ++ B).reverse
      = B.reverse ++ c :: (A.reverse ++ [x]) := by
    simp [List.reverse_append]
  unfold jsTrim
  rw [h1, h2, List.dropWhile_append]
  by_cases hB : (B.reverse.dropWhile wsChar).isEmpty
  · refine ⟨[], ?_⟩
    rw [if_pos hB, List.dropWhile_cons_of_neg (by simp [hc])]
    simp
  · refine ⟨(B.reverse.dropWhile wsChar).reverse, ?_⟩
    rw [if_neg hB]
    simp [List.reverse_append]

/-! ### Claim C4: merge carries metadata over and replaces the steps -/

/-- C4: `mergeStepsIntoYaml` extracts the `{id, desc}` metadata of the
existing text and re-serializes the new steps under it (first conjunct of
the universal part); whenever the existing text has nonempty `id` and
`desc` metadata, the merged output therefore begins with the original
`id:` and `desc:` lines followed by a fresh `steps:` section (second
conjunct), which contains exactly the serialization of the new steps and
nothing of the old document's step entries - demonstrated on the spec's
scenario: the old `old_step` entry is gone, the new `new_step` entry and
both metadata lines are present. -/
theorem C4_merge_carries_metadata_and_replaces_steps :
    (∀ (text : String) (steps : List Step) (i d : String),
        extractPipelineMetadata text = { id := some i, desc := some d } →
        i ≠ "" → d ≠ "" →
        mergeStepsIntoYaml text steps = stepsToYaml steps (some i) (some d)
        ∧ ∃ r : String, mergeStepsIntoYaml text steps
            = "id: " ++ i ++ "\ndesc: " ++ d ++ "\n\nsteps:" ++ r)
    ∧ mergeStepsIntoYaml "\nid: original-id\ndesc: Original description\nsteps:\n  - id: old_step\n    kind: input\n"
        [{ id := "new_step", kind := "output", format := some "parquet" }]
      = "id: original-id\ndesc: Original description\n\nsteps:\n  - id: new_step\n    kind: output\n    format: parquet"
    ∧ containsSub (mergeStepsIntoYaml "\nid: original-id\ndesc: Original description\nsteps:\n  - id: old_step\n    kind: input\n"
        [{ id := "new_step", kind := "output", format := some "parquet" }]).data
        "old_step".data = false := by
  refine ⟨?_, rfl, by decide⟩
  intro text steps i d h hi hd
  have h1 : mergeStepsIntoYaml text steps = stepsToYaml steps (some i) (some d) := by
    simp [mergeStepsIntoYaml, h]
  refine ⟨h1, ?_⟩
  rw [h1]
  have hi' : (i != "") = true := by simpa using hi
  have hd' : (d != "") = true := by simpa using hd
  set X : String := "id: " ++ i ++ "\ndesc: " ++ d ++ "\n\nsteps:" with hX
  set body : List String := (steps.map (fun s => stepLines s ++ [""])).flatten with hbody
  have hlines : stepsToYaml steps (some i) (some d)
      = String.mk (jsTrim (joinNl ((("id: " ++ i) :: ("desc: " ++ d) :: "" :: "steps:" :: body).map String.data))) := by
    simp [stepsToYaml, allLines, defaultIfFalsy, hi', hd', hbody]
  have hjoin : ∃ B, joinNl ((("id: " ++ i) :: ("desc: " ++ d) :: "" :: "steps:" :: body).map String.data)
      = X.data ++ B := by
    have hx : X.data = ("id: " ++ i).data ++ '\n' :: (("desc: " ++ d).data
        ++ '\n' :: ('\n' :: "steps:".data)) := by
      simp [hX, data_append]
    match body with
    | [] =>
      exact ⟨[], by simp [joinNl_cons_cons, joinNl, hx]⟩
    | b :: bs =>
      refine ⟨'\n' :: joinNl ((b :: bs).map String.data), ?_⟩
      simp [joinNl_cons_cons, joinNl, hx]
  obtain ⟨B, hB⟩ := hjoin
  have hshape : X.data = 'i' :: ("d: " ++ i ++ "\ndesc: " ++ d ++ "\n\nsteps").data ++ [':'] := by
    simp [hX, data_append]
  obtain ⟨r, hr⟩ := jsTrim_keeps_head 'i'
    (("d: " ++ i ++ "\ndesc: " ++ d ++ "\n\nsteps").data) ':' B (by decide) (by decide)
  refine ⟨String.mk r, ?_⟩
  rw [hlines, hB, hshape, hr]
  exact String.ext (by
    show ('i' :: ("d: " ++ i ++ "\ndesc: " ++ d ++ "\n\nsteps").data ++ [':']) ++ r
        = X.data ++ r
    rw [hshape])

/-- Witness for C4: the universal part applied to the concrete text
`"id: pw\ndesc: dw"` and the empty step list. -/
theorem C4_witness :
    mergeStepsIntoYaml "id: pw\ndesc: dw" [] = stepsToYaml [] (some "pw") (some "dw")
    ∧ ∃ r : String, mergeStepsIntoYaml "id: pw\ndesc: dw" []
        = "id: " ++ "pw" ++ "\ndesc: " ++ "dw" ++ "\n\nsteps:" ++ r :=
  C4_merge_carries_metadata_and_replaces_steps.1
    "id: pw\ndesc: dw" [] "pw" "dw" (by decide) (by decide) (by decide)

/-! ### Claim C6: multiplicity of duplicate-id errors

Error-message discrimination: the four per-step messages and the three
structural messages start with distinct words, so a duplicate-id message
can never collide with any other message. -/

/-- `dupMsg` is injective. -/
theorem dupMsg_inj {a b : String} (h : dupMsg a = dupMsg b) : a = b := by
  have h2 := congrArg String.data h
  have h3 : ("Duplicate step ID: '".data ++ a.data) ++ ['\'']
      = ("Duplicate step ID: '".data ++ b.data) ++ ['\''] := h2
  exact String.ext (List.append_cancel_left (List.append_cancel_right h3))

/-- An invalid-kind message is never a duplicate-id message. -/
theorem kindMsg_ne_dupMsg (k i x : String) : kindMsg k i ≠ dupMsg x := fun h => by
  have h2 : (some 'I' : Option Char) = some 'D' := congrArg (fun t => t.data.head?) h
  exact absurd h2 (by decide)

/-- A missing-format message is never a duplicate-id message. -/
theorem fmtMsg_ne_dupMsg (i k x : String) : fmtMsg i k ≠ dupMsg x := fun h => by
  have h2 : (some 'S' : Option Char) = some 'D' := congrArg (fun t => t.data.head?) h
  exact absurd h2 (by decide)

/-- An unknown-source message is never a duplicate-id message. -/
theorem srcMsg_ne_dupMsg (i s x : String) : srcMsg i s ≠ dupMsg x := fun h => by
  have h2 : (some 'S' : Option Char) = some 'D' := congrArg (fun t => t.data.head?) h
  exact absurd h2 (by decide)

/-- None of the three structural messages is a duplicate-id message. -/
theorem structMsg_ne_dupMsg (x : String) :
    pipeIdMsg ≠ dupMsg x ∧ pipeStepsMsg ≠ dupMsg x ∧ pipeMinMsg ≠ dupMsg x := by
  refine ⟨fun h => ?_, fun h => ?_, fun h => ?_⟩ <;>
  · have h2 : (some 'P' : Option Char) = some 'D' := congrArg (fun t => t.data.head?) h
    exact absurd h2 (by decide)

/-- The kind check contributes no duplicate-id message. -/
theorem count_kindCheck_dupMsg (s : Step) (x : String) :
    (kindCheck s).count (dupMsg x) = 0 := by
  unfold kindCheck
  split
  · rfl
  · simp [List.count_cons, kindMsg_ne_dupMsg s.kind s.id x]

/-- The format check contributes no duplicate-id message. -/
theorem count_fmtCheck_dupMsg (s : Step) (x : String) :
    (fmtCheck s).count (dupMsg x) = 0 := by
  unfold fmtCheck
  split
  · simp [List.count_cons, fmtMsg_ne_dupMsg s.id s.kind x]
  · rfl

/-- The source check contributes no duplicate-id message. -/
theorem count_srcCheck_dupMsg (seen : List String) (all : List Step) (s : Step)
    (x : String) : (srcCheck seen all s).count (dupMsg x) = 0 := by
  unfold srcCheck
  cases s.source with
  | none => rfl
  | some src =>
    simp only []
    split
    · split
      · rfl
      · simp [List.count_cons, srcMsg_ne_dupMsg s.id src x]
    · rfl

/-- The duplicate check contributes one duplicate-id message for `x` exactly
when the current id is `x` and has been seen. -/
theorem count_dupCheck_dupMsg (seen : List String) (s : Step) (x : String) :
    (dupCheck seen s).count (dupMsg x)
      = if seen.contains s.id && (s.id == x) then 1 else 0 := by
  unfold dupCheck
  cases hcon : seen.contains s.id with
  | false => simp [hcon]
  | true =>
    by_cases hsx : s.id = x
    · subst hsx; simp
    · have hne : (dupMsg s.id == dupMsg x) = false :=
        beq_eq_false_iff_ne.mpr (fun h => hsx (dupMsg_inj h))
      have hx : (s.id == x) = false := beq_eq_false_iff_ne.mpr hsx
      simp [List.count_cons, hne, hx]

/-- Membership in the JS-`Set` model `addSeen`. -/
theorem contains_addSeen (seen : List String) (s : Step) (x : String) :
    (addSeen seen s).contains x = (seen.contains x || s.id == x) := by
  unfold addSeen
  by_cases hm : s.id ∈ seen
  · have hcon : seen.contains s.id = true := by
      simpa [List.elem_eq_mem] using hm
    by_cases hsx : s.id = x
    · subst hsx; simp [hcon, hm]
    · have hx : (s.id == x) = false := beq_eq_false_iff_ne.mpr hsx
      simp [hcon, hx, hm]
  · have hcon : seen.contains s.id = false := by
      simpa [List.elem_eq_mem] using hm
    by_cases hsx : s.id = x
    · subst hsx
      simp [hcon, hm]
    · have hx : (s.id == x) = false := beq_eq_false_iff_ne.mpr hsx
      have hx2 : x ≠ s.id := fun h => hsx h.symm
      simp [hcon, hx, hx2, hm]

/-- Multiplicity of the duplicate-id message for `x` in the validator's
per-step loop: one per occurrence of `x` beyond those already `seen`. -/
theorem count_stepChecks_dupMsg (all : List Step) (x : String) :
    ∀ (l : List Step) (seen : List String),
      (stepChecks all l seen).count (dupMsg x)
        = l.countP (fun s => s.id == x) - (if seen.contains x then 0 else 1) := by
  intro l
  induction l with
  | nil => intro seen; simp [stepChecks]
  | cons s rest ih =>
    intro seen
    simp only [stepChecks, List.count_append, List.countP_cons,
      count_kindCheck_dupMsg, count_fmtCheck_dupMsg, count_srcCheck_dupMsg,
      count_dupCheck_dupMsg, ih, contains_addSeen]
    by_cases hsx : s.id = x
    · subst hsx
      by_cases hm : s.id ∈ seen
      · have hc : seen.contains s.id = true := by simpa [List.elem_eq_mem] using hm
        simp [hm, hc]
        omega
      · have hc : seen.contains s.id = false := by simpa [List.elem_eq_mem] using hm
        simp [hm, hc]
    · have hxx : (s.id == x) = false := beq_eq_false_iff_ne.mpr hsx
      by_cases hm : x ∈ seen
      · have hc : seen.contains x = true := by simpa [List.elem_eq_mem] using hm
        simp [hxx, hm, hc]
      · have hc : seen.contains x = false := by simpa [List.elem_eq_mem] using hm
        simp [hxx, hm, hc]

/-- C6: for every input document and id `x`, the number of
`Duplicate step ID: 'x'` entries in the validator's errors array equals the
number of occurrences of `x` among the parsed step ids minus one (so one
error per repeated occurrence, none for the first); in particular the
two-step document with both ids `duplicate` produces exactly one such
entry. -/
theorem C6_one_duplicate_error_per_repeated_occurrence :
    (∀ (yaml : String) (x : String),
        (validateYaml yaml).errors.count (dupMsg x)
          = (parseYamlSteps yaml).countP (fun s => s.id == x) - 1)
    ∧ (parseYamlSteps "\nid: test\nsteps:\n  - id: duplicate\n    kind: input\n  - id: duplicate\n    kind: output\n").length = 2
    ∧ (validateYaml "\nid: test\nsteps:\n  - id: duplicate\n    kind: input\n  - id: duplicate\n    kind: output\n").errors.count
        (dupMsg "duplicate") = 1 := by
  refine ⟨?_, rfl, by decide⟩
  intro yaml x
  obtain ⟨n1, n2, n3⟩ := structMsg_ne_dupMsg x
  have hnil : (List.contains ([] : List String) x) = false := rfl
  have e1 : (if hasIdLineAux yaml.data true then ([] : List String) else [pipeIdMsg]).count (dupMsg x) = 0 := by
    split
    · rfl
    · simp [List.count_cons, n1]
  have e2 : (if containsSub yaml.data "steps:".data then ([] : List String) else [pipeStepsMsg]).count (dupMsg x) = 0 := by
    split
    · rfl
    · simp [List.count_cons, n2]
  have e3 : (if (parseYamlSteps yaml).length == 0 then [pipeMinMsg] else ([] : List String)).count (dupMsg x) = 0 := by
    split
    · simp [List.count_cons, n3]
    · rfl
  simp only [validateYaml, List.count_append, e1, e2, e3,
    count_stepChecks_dupMsg, hnil, Bool.false_eq_true, if_false]
  omega

/-! ### Claim C8: parse totality and tolerance -/

/-- C8: `parseYamlSteps` is a total function (it never throws by
construction of the embedding): when the `steps:` section regex finds no
match - in particular on the empty string or a document with no `steps:`
section - it returns the empty list, and every chunk whose block yields no
`id` or no `kind` token is silently dropped by the `filterMap` (a block
missing either parses to `none` and contributes nothing). -/
theorem C8_parse_never_fails_and_drops_incomplete_chunks :
    (∀ yaml : String, findStepsContent yaml.data = none → parseYamlSteps yaml = [])
    ∧ parseYamlSteps "" = []
    ∧ parseYamlSteps "id: test\ndesc: description" = []
    ∧ (∀ block : List Char,
        findToken "id:".data block = none ∨ findToken "kind:".data block = none →
        parseStepBlock block = none)
    ∧ (∀ yaml : String,
        parseYamlSteps yaml = (stepChunks yaml.data).filterMap parseStepBlock) := by
  refine ⟨?_, rfl, rfl, ?_, fun _ => rfl⟩
  · intro yaml h
    simp [parseYamlSteps, stepChunks, h]
  · intro block h
    cases h1 : findToken "id:".data block <;> cases h2 : findToken "kind:".data block <;>
      simp_all [parseStepBlock]

/-- Witness for C8: the hypotheses are satisfiable - the documents-without-
steps conjunct applies to `"id: test\ndesc: description"` and the
dropped-chunk conjunct to the block `"foo: bar"` (which has no `id:`). -/
theorem C8_witness :
    parseYamlSteps "id: test\ndesc: description" = []
    ∧ parseStepBlock "foo: bar".data = none := by
  exact ⟨C8_parse_never_fails_and_drops_incomplete_chunks.1
           "id: test\ndesc: description" (by decide),
         C8_parse_never_fails_and_drops_incomplete_chunks.2.2.2.1
           "foo: bar".data (Or.inl (by decide))⟩


/-! ### Claim C7: the unknown-source check

The unknown-source error for a step fires exactly when the step's `source`
names an id of no step in the full parsed list: although the source loop
consults the incrementally built `stepIds` set, the emitting branch also
requires `steps.some` / `steps.find?` over the complete list, so forward
references never raise the error.  Messages are discriminated through their
distinct leading words; the two messages sharing the prefix `Step '...'`
(unknown-source and missing-format) are separated using that parsed ids are
whitespace-free tokens, so the word after the id's closing quote decides. -/

/-- A `takeWhile` result satisfies the predicate everywhere. -/
theorem all_takeWhile (p : Char → Bool) (l : List Char) :
    (l.takeWhile p).all p = true := by
  induction l with
  | nil => rfl
  | cons c rest ih =>
    by_cases hc : p c
    · simp [List.takeWhile_cons_of_pos hc, hc, ih]
    · simp [List.takeWhile_cons_of_neg hc]

/-- Tokens returned by `findToken` are whitespace-free. -/
theorem findToken_wsFree (key : List Char) :
    ∀ (l t : List Char), findToken key l = some t →
      t.all (fun c => !(wsChar c)) = true := by
  intro l
  induction l with
  | nil => intro t h; simp [findToken] at h
  | cons c rest ih =>
    intro t h
    simp only [findToken] at h
    split at h
    · split at h
      · exact ih t h
      · cases h
        exact all_takeWhile _ _
    · exact ih t h

/-- A parsed step's `id` and `source` are whitespace-free tokens. -/
theorem parseStepBlock_tokens {block : List Char} {s : Step}
    (h : parseStepBlock block = some s) :
    wsFree s.id = true ∧ (∀ v, s.source = some v → wsFree v = true) := by
  unfold parseStepBlock at h
  split at h
  · rename_i i k hik hkk
    cases h
    refine ⟨findToken_wsFree _ _ _ hik, ?_⟩
    intro v hv
    cases hsv : findToken "source:".data block with
    | none => rw [hsv] at hv; cases hv
    | some w =>
      rw [hsv] at hv
      cases hv
      exact findToken_wsFree _ _ _ hsv
  · cases h

/-- Every parsed step has whitespace-free `id` and `source` tokens. -/
theorem parseYamlSteps_tokens (yaml : String) :
    ∀ s ∈ parseYamlSteps yaml,
      wsFree s.id = true ∧ (∀ v, s.source = some v → wsFree v = true) := by
  intro s hs
  unfold parseYamlSteps at hs
  obtain ⟨b, _, hb⟩ := List.mem_filterMap.mp hs
  exact parseStepBlock_tokens hb

/-- Decomposition of the unknown-source message. -/
theorem srcMsg_data (i s : String) :
    (srcMsg i s).data
      = "Step '".data ++ (i.data ++ ('\'' :: ' ' ::
          ("references unknown source '".data ++ (s.data ++ ['\''])))) := by
  simp [srcMsg, data_append]

/-- Decomposition of the missing-format message. -/
theorem fmtMsg_data (i k : String) :
    (fmtMsg i k).data
      = "Step '".data ++ (i.data ++ ('\'' :: ' ' ::
          ("of kind '".data ++ (k.data ++ "' should specify a format".data)))) := by
  simp [fmtMsg, data_append]

/-- Reading a whitespace-free token up to the first space recovers the token
together with its closing quote. -/
theorem takeWhile_token_quote (i r : List Char)
    (hi : i.all (fun c => !(wsChar c)) = true) :
    (i ++ '\'' :: ' ' :: r).takeWhile (fun c => c != ' ') = i ++ ['\''] := by
  induction i with
  | nil => rfl
  | cons c cs ih =>
    rw [List.all_cons, Bool.and_eq_true] at hi
    have hcne : (c != ' ') = true := by
      rcases hi with ⟨hc, _⟩
      by_cases h : c = ' '
      · subst h; simp [wsChar] at hc
      · simpa using h
    simp [List.takeWhile_cons, hcne, ih hi.2]

/-- `srcMsg` is injective when the id arguments are whitespace-free
tokens. -/
theorem srcMsg_inj_tok {i1 s1 i2 s2 : String}
    (h1 : wsFree i1 = true) (h2 : wsFree i2 = true)
    (h : srcMsg i1 s1 = srcMsg i2 s2) : i1 = i2 ∧ s1 = s2 := by
  have hd := congrArg String.data h
  rw [srcMsg_data, srcMsg_data] at hd
  have h6 := List.append_cancel_left hd
  have htw := congrArg (List.takeWhile (fun c => c != ' ')) h6
  rw [takeWhile_token_quote _ _ h1, takeWhile_token_quote _ _ h2] at htw
  have hi : i1 = i2 := String.ext (List.append_cancel_right htw)
  subst hi
  refine ⟨rfl, ?_⟩
  have h7 := List.append_cancel_left h6
  simp only [List.cons.injEq, true_and] at h7
  exact String.ext (List.append_cancel_right (List.append_cancel_left h7))

/-- An unknown-source message never equals a missing-format message when
both ids are whitespace-free tokens: after the id's closing quote the former
continues with `references`, the latter with `of`. -/
theorem srcMsg_ne_fmtMsg {i s a k : String}
    (h1 : wsFree i = true) (h2 : wsFree a = true) :
    srcMsg i s ≠ fmtMsg a k := by
  intro h
  have hd := congrArg String.data h
  rw [srcMsg_data, fmtMsg_data] at hd
  have h6 := List.append_cancel_left hd
  have htw := congrArg (List.takeWhile (fun c => c != ' ')) h6
  rw [takeWhile_token_quote _ _ h1, takeWhile_token_quote _ _ h2] at htw
  have hi : i = a := String.ext (List.append_cancel_right htw)
  subst hi
  have h7 := List.append_cancel_left h6
  simp only [List.cons.injEq, true_and] at h7
  have h8 : (some 'r' : Option Char) = some 'o' := congrArg (fun l => l.head?) h7
  exact absurd h8 (by decide)

/-- An unknown-source message never equals a duplicate-id message. -/
theorem srcMsg_ne_dupMsg' (i s x : String) : srcMsg i s ≠ dupMsg x := fun h => by
  have h2 : (some 'S' : Option Char) = some 'D' := congrArg (fun t => t.data.head?) h
  exact absurd h2 (by decide)

/-- An unknown-source message never equals an invalid-kind message. -/
theorem srcMsg_ne_kindMsg (i s k j : String) : srcMsg i s ≠ kindMsg k j := fun h => by
  have h2 : (some 'S' : Option Char) = some 'I' := congrArg (fun t => t.data.head?) h
  exact absurd h2 (by decide)

/-- No structural message is an unknown-source message. -/
theorem structMsg_ne_srcMsg (i s : String) :
    pipeIdMsg ≠ srcMsg i s ∧ pipeStepsMsg ≠ srcMsg i s ∧ pipeMinMsg ≠ srcMsg i s := by
  refine ⟨fun h => ?_, fun h => ?_, fun h => ?_⟩ <;>
  · have h2 : (some 'P' : Option Char) = some 'S' := congrArg (fun t => t.data.head?) h
    exact absurd h2 (by decide)

/-- The source check emits its error when the source names an id absent from
the full list (`seen` being a subset of the full list's ids). -/
theorem srcCheck_eq_of (seen : List String) (all : List Step) (s : Step) (src : String)
    (hseen : ∀ y ∈ seen, ∃ t ∈ all, t.id = y)
    (hsrc : s.source = some src) (hne : src ≠ "")
    (hnall : ∀ t ∈ all, t.id ≠ src) :
    srcCheck seen all s = [srcMsg s.id src] := by
  have hb1 : (src != "") = true := by simpa using hne
  have hb2m : src ∉ seen := by
    intro hm
    obtain ⟨t, ht, hid⟩ := hseen src hm
    exact absurd hid (hnall t ht)
  have hb2 : seen.contains src = false := by
    simpa [List.elem_eq_mem] using hb2m
  have hb3 : all.find? (fun t => t.id == src) = none := by
    rw [List.find?_eq_none]
    intro t ht
    simpa using hnall t ht
  have hb4 : all.any (fun t => t.id == src) = false := by
    rw [List.any_eq_false]
    intro t ht
    simpa using hnall t ht
  unfold srcCheck
  split
  · rename_i hnone
    rw [hsrc] at hnone
    cases hnone
  · rename_i v hv
    have hveq : v = src := by
      rw [hsrc] at hv
      exact (Option.some.inj hv).symm
    subst hveq
    simp [hb1, hb2, hb2m, hb3, hb4]

/-- Provenance of a source-check error. -/
theorem srcCheck_mem {seen : List String} {all : List Step} {s : Step} {x : String}
    (hx : x ∈ srcCheck seen all s) :
    ∃ src, s.source = some src ∧ src ≠ "" ∧ x = srcMsg s.id src
      ∧ ∀ t ∈ all, t.id ≠ src := by
  unfold srcCheck at hx
  split at hx
  · cases hx
  · rename_i src hv
    split at hx
    · rename_i hcond
      split at hx
      · cases hx
      · rename_i hany
        have hany' : all.any (fun t => t.id == src) = false := by
          cases h : all.any (fun t => t.id == src) with
          | false => rfl
          | true => exact absurd h hany
        have hall : ∀ t ∈ all, t.id ≠ src := by
          intro t ht
          have := List.any_eq_false.mp hany' t ht
          simpa using this
        have hne : src ≠ "" := by
          simp only [Bool.and_eq_true] at hcond
          simpa using hcond.1.1
        have hxe : x = srcMsg s.id src := by simpa using hx
        exact ⟨src, hv, hne, hxe, hall⟩
    · cases hx

/-- The unknown-source message for `(i, src)` appears in the validator's
per-step loop over `l` iff some step of `l` has id `i` and a nonempty
`source` equal to `src` naming no id of the full list. -/
theorem stepChecks_srcMsg_iff (all : List Step) (i src : String)
    (htok1 : ∀ s ∈ all, wsFree s.id = true)
    (hi : wsFree i = true) :
    ∀ (l : List Step) (seen : List String),
      (∀ s ∈ l, s ∈ all) →
      (∀ y ∈ seen, ∃ t ∈ all, t.id = y) →
      (srcMsg i src ∈ stepChecks all l seen ↔
        ∃ s ∈ l, s.id = i ∧ s.source = some src ∧ src ≠ ""
          ∧ ∀ t ∈ all, t.id ≠ src) := by
  intro l
  induction l with
  | nil => intro seen _ _; simp [stepChecks]
  | cons s rest ih =>
    intro seen hsub hseen
    have hs_all : s ∈ all := hsub s (List.mem_cons_self _ _)
    have hsub' : ∀ t ∈ rest, t ∈ all := fun t ht => hsub t (List.mem_cons_of_mem _ ht)
    have hseen' : ∀ y ∈ addSeen seen s, ∃ t ∈ all, t.id = y := by
      intro y hy
      unfold addSeen at hy
      split at hy
      · exact hseen y hy
      · rcases List.mem_append.mp hy with h | h
        · exact hseen y h
        · have hys : y = s.id := by simpa using h
          exact ⟨s, hs_all, hys.symm⟩
    constructor
    · intro hmem
      simp only [stepChecks, List.mem_append] at hmem
      rcases hmem with hdup | (((hkind | hfmt) | hsrcm) | hrec)
      · exfalso
        unfold dupCheck at hdup
        split at hdup
        · have heq : srcMsg i src = dupMsg s.id := by simpa using hdup
          exact srcMsg_ne_dupMsg' i src s.id heq
        · cases hdup
      · exfalso
        unfold kindCheck at hkind
        split at hkind
        · cases hkind
        · have heq : srcMsg i src = kindMsg s.kind s.id := by simpa using hkind
          exact srcMsg_ne_kindMsg i src s.kind s.id heq
      · exfalso
        unfold fmtCheck at hfmt
        split at hfmt
        · have heq : srcMsg i src = fmtMsg s.id s.kind := by simpa using hfmt
          exact srcMsg_ne_fmtMsg hi (htok1 s hs_all) heq
        · cases hfmt
      · obtain ⟨v, hv, hvne, hveq, hvall⟩ := srcCheck_mem hsrcm
        obtain ⟨hii, hss⟩ := srcMsg_inj_tok hi (htok1 s hs_all) hveq
        subst hss
        exact ⟨s, List.mem_cons_self _ _, hii.symm, hv, hvne, hvall⟩
      · obtain ⟨t, ht, hrest⟩ := (ih (addSeen seen s) hsub' hseen').mp hrec
        exact ⟨t, List.mem_cons_of_mem _ ht, hrest⟩
    · intro hex
      obtain ⟨t, htl, hid, hsrct, hne, hall⟩ := hex
      simp only [stepChecks, List.mem_append]
      rcases List.mem_cons.mp htl with rfl | htl'
      · refine Or.inr (Or.inl (Or.inr ?_))
        rw [srcCheck_eq_of (addSeen seen t) all t src hseen' hsrct hne hall]
        simp [hid]
      · refine Or.inr (Or.inr ?_)
        exact (ih (addSeen seen s) hsub' hseen').mpr ⟨t, htl', hid, hsrct, hne, hall⟩

/-- C7: for every document, `validateYaml` reports the unknown-source error
`Step 'i' references unknown source 'src'` iff some parsed step has id `i`
and a nonempty `source` equal to `src` that names no step id anywhere in the
full parsed list (so forward references are legal); the second conjunct
checks the spec's forward-reference scenario directly: step `stepA` sourcing
the later step `stepB` yields a valid document with no errors.  (The token
hypotheses hold for every parsed step; `i` and `src` range over the shapes
the parser can produce.) -/
theorem C7_unknown_source_error_iff :
    (∀ (yaml : String) (i src : String),
        wsFree i = true → wsFree src = true →
        (srcMsg i src ∈ (validateYaml yaml).errors ↔
          ∃ s ∈ parseYamlSteps yaml, s.id = i ∧ s.source = some src ∧ src ≠ ""
            ∧ ∀ t ∈ parseYamlSteps yaml, t.id ≠ src))
    ∧ validateYaml "id: t7\nsteps:\n  - id: stepA\n    kind: sql\n    source: stepB\n  - id: stepB\n    kind: input\n    format: csv"
      = { valid := true, errors := [] } := by
  refine ⟨?_, rfl⟩
  intro yaml i src hi hsrc
  have htok := parseYamlSteps_tokens yaml
  have hkey := stepChecks_srcMsg_iff (parseYamlSteps yaml) i src
      (fun s hs => (htok s hs).1) hi
      (parseYamlSteps yaml) [] (fun s hs => hs) (by simp)
  obtain ⟨n1, n2, n3⟩ := structMsg_ne_srcMsg i src
  constructor
  · intro hmem
    simp only [validateYaml, List.mem_append] at hmem
    rcases hmem with ((h1 | h2) | h3) | h4
    · exfalso
      split at h1
      · cases h1
      · have : srcMsg i src = pipeIdMsg := by simpa using h1
        exact n1 this.symm
    · exfalso
      split at h2
      · cases h2
      · have : srcMsg i src = pipeStepsMsg := by simpa using h2
        exact n2 this.symm
    · exfalso
      split at h3
      · have : srcMsg i src = pipeMinMsg := by simpa using h3
        exact n3 this.symm
      · cases h3
    · exact hkey.mp h4
  · intro hex
    simp only [validateYaml, List.mem_append]
    exact Or.inr (hkey.mpr hex)

/-- Witness for C7: the iff applied to a document whose single step sources
the missing id `missing`. -/
theorem C7_witness :
    srcMsg "a" "missing" ∈ (validateYaml "id: w\nsteps:\n  - id: a\n    kind: sql\n    source: missing").errors ↔
      ∃ s ∈ parseYamlSteps "id: w\nsteps:\n  - id: a\n    kind: sql\n    source: missing",
        s.id = "a" ∧ s.source = some "missing" ∧ "missing" ≠ ""
          ∧ ∀ t ∈ parseYamlSteps "id: w\nsteps:\n  - id: a\n    kind: sql\n    source: missing",
              t.id ≠ "missing" :=
  C7_unknown_source_error_iff.1
    "id: w\nsteps:\n  - id: a\n    kind: sql\n    source: missing"
    "a" "missing" (by decide) (by decide)


/-! ### Claim C9: fixed attribute order, omission of absent attributes

`attrKeys` reads the attribute keys off the emitted lines (the claim's
observable); determinism is immediate since the embedded serializer is a
pure function of its arguments. -/

/-- The attribute keys of a list of emitted lines. -/
def attrKeys (elems : List String) : List String :=
  elems.filterMap (fun e => (attrKeyOf e.data).map String.mk)

/-- `splitNl` never returns the empty list. -/
theorem splitNl_ne_nil (l : List Char) : splitNl l ≠ [] := by
  cases l with
  | nil => simp [splitNl]
  | cons c rest =>
    simp only [splitNl]
    split
    · simp
    · split <;> simp

/-- Every piece of a `splitNl` is newline-free. -/
theorem all_splitNl (l : List Char) :
    ∀ p ∈ splitNl l, p.all (fun c => c != '\n') = true := by
  induction l with
  | nil =>
    intro p hp
    simp only [splitNl, List.mem_singleton] at hp
    subst hp; rfl
  | cons c rest ih =>
    intro p hp
    simp only [splitNl] at hp
    split at hp
    · rcases List.mem_cons.mp hp with rfl | hp'
      · rfl
      · exact ih p hp'
    · rename_i hc
      rcases hsp : splitNl rest with _ | ⟨h, t⟩
      · exact absurd hsp (splitNl_ne_nil rest)
      · rw [hsp] at hp
        have hcb : (c != '\n') = true := by simpa using hc
        have hmem : h ∈ splitNl rest := by rw [hsp]; exact List.mem_cons_self _ _
        rcases List.mem_cons.mp hp with rfl | hp'
        · simp [List.all_cons, hcb, ih h hmem]
        · exact ih p (by rw [hsp]; exact List.mem_cons_of_mem _ hp')

/-- Splitting a newline-free text yields the single piece itself. -/
theorem splitNl_of_nlFree : ∀ (e : List Char),
    e.all (fun c => c != '\n') = true → splitNl e = [e] := by
  intro e
  induction e with
  | nil => intro _; rfl
  | cons c cs ih =>
    intro h
    rw [List.all_cons, Bool.and_eq_true] at h
    have hc : ¬ c = '\n' := by simpa using h.1
    simp [splitNl, hc, ih h.2]

/-- Splitting a newline-free piece glued before a newline peels it off. -/
theorem splitNl_append_nl : ∀ (e X : List Char),
    e.all (fun c => c != '\n') = true →
    splitNl (e ++ '\n' :: X) = e :: splitNl X := by
  intro e X
  induction e with
  | nil => intro _; simp [splitNl]
  | cons c cs ih =>
    intro h
    rw [List.all_cons, Bool.and_eq_true] at h
    have hc : ¬ c = '\n' := by simpa using h.1
    simp [splitNl, hc, ih h.2]

/-- `splitNl` is a left inverse of `joinNl` on nonempty lists of
newline-free lines. -/
theorem splitNl_joinNl : ∀ (l : List (List Char)), l ≠ [] →
    (∀ x ∈ l, x.all (fun c => c != '\n') = true) →
    splitNl (joinNl l) = l := by
  intro l
  induction l with
  | nil => intro h _; exact absurd rfl h
  | cons e rest ih =>
    intro _ hall
    cases rest with
    | nil => exact splitNl_of_nlFree e (hall e (List.mem_cons_self _ _))
    | cons r rs =>
      rw [joinNl_cons_cons,
        splitNl_append_nl e _ (hall e (List.mem_cons_self _ _)),
        ih (by simp) (fun x hx => hall x (List.mem_cons_of_mem _ hx))]

/-- Keys of the `shortDesc` segment. -/
theorem attrKeys_shortDesc (o : Option String) (h : optNorm o = true) :
    attrKeys (optLine "shortDesc" o) = if o.isSome then ["shortDesc"] else [] := by
  cases o with
  | none => rfl
  | some v =>
    rw [optNorm, Bool.and_eq_true] at h
    simp only [optLine, h.1, if_true, Option.isSome_some]
    rfl

/-- Keys of the `source` segment. -/
theorem attrKeys_source (o : Option String) (h : optNorm o = true) :
    attrKeys (optLine "source" o) = if o.isSome then ["source"] else [] := by
  cases o with
  | none => rfl
  | some v =>
    rw [optNorm, Bool.and_eq_true] at h
    simp only [optLine, h.1, if_true, Option.isSome_some]
    rfl

/-- Keys of the `format` segment. -/
theorem attrKeys_format (o : Option String) (h : optNorm o = true) :
    attrKeys (optLine "format" o) = if o.isSome then ["format"] else [] := by
  cases o with
  | none => rfl
  | some v =>
    rw [optNorm, Bool.and_eq_true] at h
    simp only [optLine, h.1, if_true, Option.isSome_some]
    rfl

/-- Keys of the `path` segment. -/
theorem attrKeys_path (o : Option String) (h : optNorm o = true) :
    attrKeys (optLine "path" o) = if o.isSome then ["path"] else [] := by
  cases o with
  | none => rfl
  | some v =>
    rw [optNorm, Bool.and_eq_true] at h
    simp only [optLine, h.1, if_true, Option.isSome_some]
    rfl

/-- Keys of the `schema` segment. -/
theorem attrKeys_schema (o : Option String) (h : optNorm o = true) :
    attrKeys (optLine "schema" o) = if o.isSome then ["schema"] else [] := by
  cases o with
  | none => rfl
  | some v =>
    rw [optNorm, Bool.and_eq_true] at h
    simp only [optLine, h.1, if_true, Option.isSome_some]
    rfl

/-- Keys of the `cache` segment. -/
theorem attrKeys_cache (o : Option Bool) :
    attrKeys (boolLine "cache" o) = if o.isSome then ["cache"] else [] := by
  cases o with
  | none => rfl
  | some b => rfl

/-- Keys of the `show` segment. -/
theorem attrKeys_show (o : Option Bool) :
    attrKeys (boolLine "show" o) = if o.isSome then ["show"] else [] := by
  cases o with
  | none => rfl
  | some b => rfl

/-- Keys of the `sql` segment: the block-scalar continuation lines are
indented six spaces and carry no key. -/
theorem attrKeys_sql (o : Option String) (h : sqlNorm o = true) :
    attrKeys (sqlSeg o) = if o.isSome then ["sql"] else [] := by
  cases o with
  | none => rfl
  | some v =>
    have hv : (v != "") = true := by simpa [sqlNorm] using h
    simp only [sqlSeg, hv, if_true, Option.isSome_some]
    by_cases hnl : v.data.contains '\n' = true
    · simp only [hnl, if_true]
      have h3 : ((splitNl v.data).map (fun l => "      " ++ String.mk l)).filterMap
          (fun e => (attrKeyOf e.data).map String.mk) = [] := by
        rw [List.filterMap_eq_nil_iff]
        intro a ha
        obtain ⟨l, _, rfl⟩ := List.mem_map.mp ha
        rfl
      rw [attrKeys, List.filterMap_append, h3]
      rfl
    · have hnl' : v.data.contains '\n' = false := by
        cases hx : v.data.contains '\n' with
        | false => rfl
        | true => exact absurd hx hnl
      simp only [hnl', Bool.false_eq_true, if_false]
      rfl

/-- Keys of the `options` segment: the nested mapping lines are indented six
spaces and carry no key. -/
theorem attrKeys_options (o : Option (List (String × String)))
    (h : optionsNorm o = true) :
    attrKeys (optionsSeg o) = if o.isSome then ["options"] else [] := by
  cases o with
  | none => rfl
  | some l =>
    rw [optionsNorm, Bool.and_eq_true] at h
    have hne : l.isEmpty = false := by
      cases hx : l.isEmpty with
      | false => rfl
      | true => rw [hx] at h; exact absurd h.1 (by decide)
    simp only [optionsSeg, hne, Bool.false_eq_true, if_false, Option.isSome_some, if_true]
    have h3 : (l.map (fun p => "      " ++ p.1 ++ ": " ++ p.2)).filterMap
        (fun e => (attrKeyOf e.data).map String.mk) = [] := by
      rw [List.filterMap_eq_nil_iff]
      intro a ha
      obtain ⟨p, _, rfl⟩ := List.mem_map.mp ha
      rfl
    rw [attrKeys, List.filterMap_append, h3]
    rfl

/-- Keys of the `dependsOn` segment: the nested sequence lines are indented
six spaces and carry no key. -/
theorem attrKeys_dependsOn (o : Option (List String)) (h : depNorm o = true) :
    attrKeys (dependsOnSeg o) = if o.isSome then ["dependsOn"] else [] := by
  cases o with
  | none => rfl
  | some l =>
    rw [depNorm, Bool.and_eq_true] at h
    have hne : l.isEmpty = false := by
      cases hx : l.isEmpty with
      | false => rfl
      | true => rw [hx] at h; exact absurd h.1 (by decide)
    simp only [dependsOnSeg, hne, Bool.false_eq_true, if_false, Option.isSome_some, if_true]
    have h3 : (l.map (fun d => "      - " ++ d)).filterMap
        (fun e => (attrKeyOf e.data).map String.mk) = [] := by
      rw [List.filterMap_eq_nil_iff]
      intro a ha
      obtain ⟨d, _, rfl⟩ := List.mem_map.mp ha
      rfl
    rw [attrKeys, List.filterMap_append, h3]
    rfl


/-- `nlFree` distributes over string append. -/
theorem nlFree_append (a b : String) : nlFree (a ++ b) = (nlFree a && nlFree b) := by
  simp [nlFree, data_append, List.all_append]

/-- A string whose characters do not contain `'\n'` is newline-free. -/
theorem nlFree_of_not_contains (v : String) (h : v.data.contains '\n' = false) :
    nlFree v = true := by
  simp only [nlFree, List.all_eq_true]
  intro x hx
  simp only [bne_iff_ne, ne_eq]
  intro hcon
  subst hcon
  have hc : v.data.contains '\n' = true := by simpa [List.elem_eq_mem] using hx
  rw [hc] at h
  exact absurd h (by decide)

/-- The id and kind lines are newline-free for newline-free tokens. -/
theorem idKind_nlFree (s : Step) (hid : nlFree s.id = true) (hk : nlFree s.kind = true) :
    ∀ e ∈ ["  - id: " ++ s.id, "    kind: " ++ s.kind], nlFree e = true := by
  intro e he
  rcases List.mem_cons.mp he with rfl | he2
  · rw [nlFree_append, hid]; decide
  · have : e = "    kind: " ++ s.kind := by simpa using he2
    subst this
    rw [nlFree_append, hk]; decide

/-- Inline attribute lines are newline-free for normalized values. -/
theorem optLine_nlFree (key : String) (o : Option String)
    (hkey : nlFree key = true) (h : optNorm o = true) :
    ∀ e ∈ optLine key o, nlFree e = true := by
  cases o with
  | none => intro e he; cases he
  | some v =>
    rw [optNorm, Bool.and_eq_true] at h
    intro e he
    simp only [optLine, h.1, if_true, List.mem_singleton] at he
    subst he
    rw [nlFree_append, nlFree_append, nlFree_append, hkey, h.2]; decide

/-- Boolean attribute lines are newline-free. -/
theorem boolLine_nlFree (key : String) (o : Option Bool) (hkey : nlFree key = true) :
    ∀ e ∈ boolLine key o, nlFree e = true := by
  cases o with
  | none => intro e he; cases he
  | some b =>
    intro e he
    have : e = "    " ++ key ++ ": " ++ (if b then "true" else "false") := by
      simpa [boolLine] using he
    subst this
    have hb : nlFree (if b then "true" else "false") = true := by cases b <;> rfl
    rw [nlFree_append, nlFree_append, nlFree_append, hkey, hb]; decide

/-- The `sql` segment's lines are newline-free. -/
theorem sqlSeg_nlFree (o : Option String) (h : sqlNorm o = true) :
    ∀ e ∈ sqlSeg o, nlFree e = true := by
  cases o with
  | none => intro e he; cases he
  | some v =>
    have hv : (v != "") = true := by simpa [sqlNorm] using h
    intro e he
    simp only [sqlSeg, hv, if_true] at he
    by_cases hnl : v.data.contains '\n' = true
    · rw [if_pos hnl] at he
      rcases List.mem_append.mp he with h1 | h2
      · have : e = "    sql: |" := by simpa using h1
        subst this; rfl
      · obtain ⟨l, hl, rfl⟩ := List.mem_map.mp h2
        have hall : nlFree (String.mk l) = true := all_splitNl v.data l hl
        rw [nlFree_append, hall]; decide
    · have hnl' : v.data.contains '\n' = false := by
        cases hx : v.data.contains '\n' with
        | false => rfl
        | true => exact absurd hx hnl
      rw [if_neg hnl] at he
      have : e = "    sql: " ++ v := by simpa using he
      subst this
      rw [nlFree_append, nlFree_of_not_contains v hnl']; decide

/-- The `options` segment's lines are newline-free. -/
theorem optionsSeg_nlFree (o : Option (List (String × String)))
    (h : optionsNorm o = true) : ∀ e ∈ optionsSeg o, nlFree e = true := by
  cases o with
  | none => intro e he; cases he
  | some l =>
    rw [optionsNorm, Bool.and_eq_true] at h
    have hents := List.all_eq_true.mp h.2
    intro e he
    simp only [optionsSeg] at he
    have hne : l.isEmpty = false := by
      cases hx : l.isEmpty with
      | false => rfl
      | true => rw [hx] at h; exact absurd h.1 (by decide)
    rw [hne] at he
    simp only [Bool.false_eq_true, if_false] at he
    rcases List.mem_append.mp he with h1 | h2
    · have : e = "    options:" := by simpa using h1
      subst this; rfl
    · obtain ⟨p, hp, rfl⟩ := List.mem_map.mp h2
      have hent := hents p hp
      rw [Bool.and_eq_true] at hent
      rw [nlFree_append, nlFree_append, nlFree_append, hent.1, hent.2]; decide

/-- The `dependsOn` segment's lines are newline-free. -/
theorem dependsOnSeg_nlFree (o : Option (List String)) (h : depNorm o = true) :
    ∀ e ∈ dependsOnSeg o, nlFree e = true := by
  cases o with
  | none => intro e he; cases he
  | some l =>
    rw [depNorm, Bool.and_eq_true] at h
    have hents := List.all_eq_true.mp h.2
    intro e he
    simp only [dependsOnSeg] at he
    have hne : l.isEmpty = false := by
      cases hx : l.isEmpty with
      | false => rfl
      | true => rw [hx] at h; exact absurd h.1 (by decide)
    rw [hne] at he
    simp only [Bool.false_eq_true, if_false] at he
    rcases List.mem_append.mp he with h1 | h2
    · have : e = "    dependsOn:" := by simpa using h1
      subst this; rfl
    · obtain ⟨d, hd, rfl⟩ := List.mem_map.mp h2
      rw [nlFree_append, hents d hd]; decide

/-- Every emitted line of a normalized step is newline-free. -/
theorem stepLines_nlFree (s : Step) (h : normalizedStep s = true) :
    ∀ e ∈ stepLines s, nlFree e = true := by
  simp only [normalizedStep, Bool.and_eq_true] at h
  obtain ⟨⟨⟨⟨⟨⟨⟨⟨⟨h1, h2⟩, h3⟩, h4⟩, h5⟩, h6⟩, h7⟩, h8⟩, h9⟩, h10⟩ := h
  intro e he
  simp only [stepLines, List.mem_append] at he
  rcases he with (((((((((hbase | hsd) | hsrc) | hfmt) | hpath) | hsql) | hcache) | hshow) | hschema) | hopts) | hdep
  · exact idKind_nlFree s h1 h2 e hbase
  · exact optLine_nlFree _ _ (by decide) h3 e hsd
  · exact optLine_nlFree _ _ (by decide) h4 e hsrc
  · exact optLine_nlFree _ _ (by decide) h5 e hfmt
  · exact optLine_nlFree _ _ (by decide) h6 e hpath
  · exact sqlSeg_nlFree _ h8 e hsql
  · exact boolLine_nlFree _ _ (by decide) e hcache
  · exact boolLine_nlFree _ _ (by decide) e hshow
  · exact optLine_nlFree _ _ (by decide) h7 e hschema
  · exact optionsSeg_nlFree _ h9 e hopts
  · exact dependsOnSeg_nlFree _ h10 e hdep

/-- `attrKeys` distributes over append. -/
theorem attrKeys_append (a b : List String) :
    attrKeys (a ++ b) = attrKeys a ++ attrKeys b :=
  List.filterMap_append ..

/-- C9: for every normalized step, the serializer emits the sequence-entry
line `  - id: <id>` first, and the attribute keys appearing in the step's
emitted text are exactly `kind` followed by the present optional attributes
in the fixed order shortDesc, source, format, path, sql, cache, show,
schema, options, dependsOn - absent attributes are omitted.  Determinism
of the output is immediate: the embedded serializer is a pure function. -/
theorem C9_fixed_attribute_order_and_omission :
    ∀ s : Step, normalizedStep s = true →
      (stepLines s).head? = some ("  - id: " ++ s.id)
      ∧ textAttrKeys (joinNl ((stepLines s).map String.data))
        = ["kind"]
          ++ (if s.shortDesc.isSome then ["shortDesc"] else [])
          ++ (if s.source.isSome then ["source"] else [])
          ++ (if s.format.isSome then ["format"] else [])
          ++ (if s.path.isSome then ["path"] else [])
          ++ (if s.sql.isSome then ["sql"] else [])
          ++ (if s.cache.isSome then ["cache"] else [])
          ++ (if s.«show».isSome then ["show"] else [])
          ++ (if s.schema.isSome then ["schema"] else [])
          ++ (if s.options.isSome then ["options"] else [])
          ++ (if s.dependsOn.isSome then ["dependsOn"] else []) := by
  intro s h
  have hnl := stepLines_nlFree s h
  simp only [normalizedStep, Bool.and_eq_true] at h
  obtain ⟨⟨⟨⟨⟨⟨⟨⟨⟨h1, h2⟩, h3⟩, h4⟩, h5⟩, h6⟩, h7⟩, h8⟩, h9⟩, h10⟩ := h
  refine ⟨rfl, ?_⟩
  have hsplit : splitNl (joinNl ((stepLines s).map String.data))
      = (stepLines s).map String.data := by
    refine splitNl_joinNl _ ?_ ?_
    · simp [stepLines]
    · intro x hx
      obtain ⟨e, he, rfl⟩ := List.mem_map.mp hx
      exact hnl e he
  rw [textAttrKeys, hsplit, List.filterMap_map]
  show attrKeys (stepLines s) = _
  rw [stepLines]
  simp only [attrKeys_append]
  rw [attrKeys_shortDesc _ h3, attrKeys_source _ h4, attrKeys_format _ h5,
    attrKeys_path _ h6, attrKeys_sql _ h8, attrKeys_cache, attrKeys_show,
    attrKeys_schema _ h7, attrKeys_options _ h9, attrKeys_dependsOn _ h10]
  have hbase : attrKeys ["  - id: " ++ s.id, "    kind: " ++ s.kind] = ["kind"] := rfl
  rw [hbase]

/-- Witness for C9: a step with every attribute present, in normal form. -/
theorem C9_witness :
    (stepLines { id := "s1", kind := "sql", shortDesc := some "d", source := some "a", format := some "csv", path := some "/p", sql := some "SELECT 1\nFROM t", schema := some "sch", cache := some true, «show» := some false, options := some [("k", "v")], dependsOn := some ["a"] : Step }).head?
      = some ("  - id: " ++ ({ id := "s1", kind := "sql", shortDesc := some "d", source := some "a", format := some "csv", path := some "/p", sql := some "SELECT 1\nFROM t", schema := some "sch", cache := some true, «show» := some false, options := some [("k", "v")], dependsOn := some ["a"] : Step }).id)
    ∧ textAttrKeys (joinNl ((stepLines { id := "s1", kind := "sql", shortDesc := some "d", source := some "a", format := some "csv", path := some "/p", sql := some "SELECT 1\nFROM t", schema := some "sch", cache := some true, «show» := some false, options := some [("k", "v")], dependsOn := some ["a"] : Step }).map String.data))
      = ["kind"]
        ++ ["shortDesc"] ++ ["source"] ++ ["format"] ++ ["path"] ++ ["sql"]
        ++ ["cache"] ++ ["show"] ++ ["schema"] ++ ["options"] ++ ["dependsOn"] :=
  C9_fixed_attribute_order_and_omission
    { id := "s1", kind := "sql", shortDesc := some "d", source := some "a", format := some "csv", path := some "/p", sql := some "SELECT 1\nFROM t", schema := some "sch", cache := some true, «show» := some false, options := some [("k", "v")], dependsOn := some ["a"] }
    (by decide)


/-! ### Claim C10: no step-level `desc` is ever serialized

A step-level `desc` attribute line would have to read `    desc:` at the
start of a line of the serialized document.  We show no emitted line starts
that way, hence the substring `"\n    desc:"` never occurs in the output and
the first line (the pipeline `id:` line) does not start with it either -
while the parser does extract a step-level `desc:` when present, so a step's
`desc` is lost across serialize-then-parse. -/

/-- A pattern without newlines that is no prefix of a newline-free piece is
no prefix of the piece glued to a newline either. -/
theorem isPrefixOf_append_cons_false :
    ∀ (e p r : List Char), p.all (fun c => c != '\n') = true →
      p.isPrefixOf e = false → p.isPrefixOf (e ++ '\n' :: r) = false := by
  intro e
  induction e with
  | nil =>
    intro p r hp he
    cases p with
    | nil => simp [List.isPrefixOf] at he
    | cons c p' =>
      rw [List.all_cons, Bool.and_eq_true] at hp
      have : (c == '\n') = false := by
        have := hp.1
        cases hx : c == '\n' with
        | false => rfl
        | true =>
          rw [(beq_iff_eq.mp hx)] at this
          exact absurd this (by decide)
      simp [List.isPrefixOf, this]
  | cons d e' ih =>
    intro p r hp he
    cases p with
    | nil => simp [List.isPrefixOf] at he
    | cons c p' =>
      simp only [List.cons_append, List.isPrefixOf, Bool.and_eq_false_iff] at he ⊢
      rcases he with he | he
      · exact Or.inl he
      · refine Or.inr (ih p' r ?_ he)
        rw [List.all_cons, Bool.and_eq_true] at hp
        exact hp.2

/-- Scanning for a newline-headed pattern skips through a newline-free
piece. -/
theorem containsSub_cons_skip (q : List Char) :
    ∀ (e r : List Char), e.all (fun c => c != '\n') = true →
      containsSub (e ++ '\n' :: r) ('\n' :: q) = containsSub ('\n' :: r) ('\n' :: q) := by
  intro e
  induction e with
  | nil => intro r _; rfl
  | cons c e' ih =>
    intro r h
    rw [List.all_cons, Bool.and_eq_true] at h
    have hc : ('\n' == c) = false := by
      have := h.1
      cases hx : '\n' == c with
      | false => rfl
      | true =>
        rw [← (beq_iff_eq.mp hx)] at this
        exact absurd this (by decide)
    simp only [List.cons_append, containsSub, List.isPrefixOf, hc,
      Bool.false_and, Bool.false_or]
    exact ih r h.2

/-- A newline-headed pattern does not occur in a newline-free text. -/
theorem containsSub_nlFree_head (q : List Char) :
    ∀ (e : List Char), e.all (fun c => c != '\n') = true →
      containsSub e ('\n' :: q) = false := by
  intro e
  induction e with
  | nil => intro _; rfl
  | cons c e' ih =>
    intro h
    rw [List.all_cons, Bool.and_eq_true] at h
    have hc : ('\n' == c) = false := by
      have := h.1
      cases hx : '\n' == c with
      | false => rfl
      | true =>
        rw [← (beq_iff_eq.mp hx)] at this
        exact absurd this (by decide)
    simp only [containsSub, List.isPrefixOf, hc, Bool.false_and, Bool.false_or]
    exact ih h.2

/-- A prefix of a larger text extends along an append. -/
theorem isPrefixOf_append_ext :
    ∀ (p s b : List Char), p.isPrefixOf s = true → p.isPrefixOf (s ++ b) = true := by
  intro p
  induction p with
  | nil => intro s b _; simp [List.isPrefixOf]
  | cons c p' ih =>
    intro s b h
    cases s with
    | nil => simp [List.isPrefixOf] at h
    | cons d s' =>
      simp only [List.isPrefixOf, Bool.and_eq_true] at h
      simp only [List.cons_append, List.isPrefixOf, Bool.and_eq_true]
      exact ⟨h.1, ih s' b h.2⟩

/-- An occurrence in a prefix is an occurrence in the whole. -/
theorem containsSub_append_left (pat : List Char) :
    ∀ (a b : List Char), containsSub a pat = true → containsSub (a ++ b) pat = true := by
  intro a
  induction a with
  | nil =>
    intro b h
    have hp : pat = [] := by
      cases pat with
      | nil => rfl
      | cons c q => simp [containsSub, List.isPrefixOf] at h
    subst hp
    cases b with
    | nil => rfl
    | cons d b' => simp [containsSub, List.isPrefixOf]
  | cons c a' ih =>
    intro b h
    simp only [containsSub, Bool.or_eq_true] at h
    simp only [List.cons_append, containsSub, Bool.or_eq_true]
    rcases h with h | h
    · exact Or.inl (isPrefixOf_append_ext pat (c :: a') b h)
    · exact Or.inr (ih b h)

/-- No occurrence survives `dropWhile`. -/
theorem containsSub_dropWhile (pat : List Char) (q : Char → Bool) :
    ∀ (l : List Char), containsSub l pat = false →
      containsSub (l.dropWhile q) pat = false := by
  intro l
  induction l with
  | nil => intro h; simpa using h
  | cons c l' ih =>
    intro h
    simp only [containsSub, Bool.or_eq_false_iff] at h
    by_cases hq : q c
    · rw [List.dropWhile_cons_of_pos hq]
      exact ih h.2
    · rw [List.dropWhile_cons_of_neg hq]
      simp [containsSub, h.1, h.2]

/-- The trailing-whitespace strip is a prefix decomposition. -/
theorem dropTrailing_decomp (l : List Char) :
    (l.reverse.dropWhile wsChar).reverse ++ (l.reverse.takeWhile wsChar).reverse = l := by
  rw [← List.reverse_append, List.takeWhile_append_dropWhile, List.reverse_reverse]

/-- `jsTrim` preserves the absence of a substring. -/
theorem containsSub_jsTrim (pat l : List Char) (h : containsSub l pat = false) :
    containsSub (jsTrim l) pat = false := by
  have h2 : containsSub (l.dropWhile wsChar) pat = false :=
    containsSub_dropWhile pat wsChar l h
  cases hx : containsSub (jsTrim l) pat with
  | false => rfl
  | true =>
    exfalso
    have h3 := containsSub_append_left pat (jsTrim l)
      (((l.dropWhile wsChar).reverse.takeWhile wsChar).reverse) hx
    rw [jsTrim, dropTrailing_decomp] at h3
    rw [h3] at h2
    exact absurd h2 (by decide)

/-- `joinNl` of a nonempty list starts with its first element. -/
theorem joinNl_head_decomp (x : List Char) (t : List (List Char)) :
    ∃ B, joinNl (x :: t) = x ++ B := by
  cases t with
  | nil => exact ⟨[], by simp [joinNl]⟩
  | cons y t' => exact ⟨'\n' :: joinNl (y :: t'), rfl⟩

/-- Step-attribute lines never begin a step-level `desc` attribute: the join
of lines none of which starts with `    desc:` (all newline-free) contains
no `"\n    desc:"` substring. -/
theorem joinNl_no_desc :
    ∀ (elems : List (List Char)),
      (∀ e ∈ elems, e.all (fun c => c != '\n') = true) →
      (∀ e ∈ elems, "    desc:".data.isPrefixOf e = false) →
      containsSub (joinNl elems) ('\n' :: "    desc:".data) = false := by
  intro elems
  induction elems with
  | nil => intro _ _; rfl
  | cons e rest ih =>
    intro hnl hpfx
    cases rest with
    | nil =>
      exact containsSub_nlFree_head _ (joinNl [e]) (hnl e (List.mem_cons_self _ _))
    | cons r rs =>
      rw [joinNl_cons_cons,
        containsSub_cons_skip _ e _ (hnl e (List.mem_cons_self _ _))]
      have hJ : "    desc:".data.isPrefixOf (joinNl (r :: rs)) = false := by
        cases rs with
        | nil =>
          exact hpfx r (List.mem_cons_of_mem _ (List.mem_cons_self _ _))
        | cons r2 rs2 =>
          rw [joinNl_cons_cons]
          exact isPrefixOf_append_cons_false r _ _ (by decide)
            (hpfx r (List.mem_cons_of_mem _ (List.mem_cons_self _ _)))
      have hrec : containsSub (joinNl (r :: rs)) ('\n' :: "    desc:".data) = false :=
        ih (fun x hx => hnl x (List.mem_cons_of_mem _ hx))
          (fun x hx => hpfx x (List.mem_cons_of_mem _ hx))
      simp [containsSub, List.isPrefixOf, hJ, hrec]


/-- Inline attribute lines of the five string attributes never start a
`desc` attribute (their keys differ from `desc` at the first character). -/
theorem optLine_no_desc_shortDesc (o : Option String) :
    ∀ e ∈ optLine "shortDesc" o, "    desc:".data.isPrefixOf e.data = false := by
  cases o with
  | none => intro e he; cases he
  | some v =>
    intro e he
    by_cases hv : (v != "") = true
    · simp only [optLine, hv, if_true, List.mem_singleton] at he
      subst he; rfl
    · rw [optLine, if_neg hv] at he
      cases he

/-- No `desc` attribute from the `source` line. -/
theorem optLine_no_desc_source (o : Option String) :
    ∀ e ∈ optLine "source" o, "    desc:".data.isPrefixOf e.data = false := by
  cases o with
  | none => intro e he; cases he
  | some v =>
    intro e he
    by_cases hv : (v != "") = true
    · simp only [optLine, hv, if_true, List.mem_singleton] at he
      subst he; rfl
    · rw [optLine, if_neg hv] at he
      cases he

/-- No `desc` attribute from the `format` line. -/
theorem optLine_no_desc_format (o : Option String) :
    ∀ e ∈ optLine "format" o, "    desc:".data.isPrefixOf e.data = false := by
  cases o with
  | none => intro e he; cases he
  | some v =>
    intro e he
    by_cases hv : (v != "") = true
    · simp only [optLine, hv, if_true, List.mem_singleton] at he
      subst he; rfl
    · rw [optLine, if_neg hv] at he
      cases he

/-- No `desc` attribute from the `path` line. -/
theorem optLine_no_desc_path (o : Option String) :
    ∀ e ∈ optLine "path" o, "    desc:".data.isPrefixOf e.data = false := by
  cases o with
  | none => intro e he; cases he
  | some v =>
    intro e he
    by_cases hv : (v != "") = true
    · simp only [optLine, hv, if_true, List.mem_singleton] at he
      subst he; rfl
    · rw [optLine, if_neg hv] at he
      cases he

/-- No `desc` attribute from the `schema` line. -/
theorem optLine_no_desc_schema (o : Option String) :
    ∀ e ∈ optLine "schema" o, "    desc:".data.isPrefixOf e.data = false := by
  cases o with
  | none => intro e he; cases he
  | some v =>
    intro e he
    by_cases hv : (v != "") = true
    · simp only [optLine, hv, if_true, List.mem_singleton] at he
      subst he; rfl
    · rw [optLine, if_neg hv] at he
      cases he

/-- No `desc` attribute from the `sql` segment. -/
theorem sqlSeg_no_desc (o : Option String) :
    ∀ e ∈ sqlSeg o, "    desc:".data.isPrefixOf e.data = false := by
  cases o with
  | none => intro e he; cases he
  | some v =>
    intro e he
    by_cases hv : (v != "") = true
    · simp only [sqlSeg, hv, if_true] at he
      by_cases hnl : v.data.contains '\n' = true
      · rw [if_pos hnl] at he
        rcases List.mem_append.mp he with h1 | h2
        · have : e = "    sql: |" := by simpa using h1
          subst this; rfl
        · obtain ⟨l, _, rfl⟩ := List.mem_map.mp h2
          rfl
      · rw [if_neg hnl] at he
        have : e = "    sql: " ++ v := by simpa using he
        subst this; rfl
    · rw [sqlSeg, if_neg hv] at he
      cases he

/-- No `desc` attribute from the `cache` line. -/
theorem boolLine_no_desc_cache (o : Option Bool) :
    ∀ e ∈ boolLine "cache" o, "    desc:".data.isPrefixOf e.data = false := by
  cases o with
  | none => intro e he; cases he
  | some b =>
    intro e he
    have : e = "    " ++ "cache" ++ ": " ++ (if b then "true" else "false") := by
      simpa [boolLine] using he
    subst this; rfl

/-- No `desc` attribute from the `show` line. -/
theorem boolLine_no_desc_show (o : Option Bool) :
    ∀ e ∈ boolLine "show" o, "    desc:".data.isPrefixOf e.data = false := by
  cases o with
  | none => intro e he; cases he
  | some b =>
    intro e he
    have : e = "    " ++ "show" ++ ": " ++ (if b then "true" else "false") := by
      simpa [boolLine] using he
    subst this; rfl

/-- No `desc` attribute from the `options` block. -/
theorem optionsSeg_no_desc (o : Option (List (String × String))) :
    ∀ e ∈ optionsSeg o, "    desc:".data.isPrefixOf e.data = false := by
  cases o with
  | none => intro e he; cases he
  | some l =>
    intro e he
    simp only [optionsSeg] at he
    by_cases hl : l.isEmpty = true
    · rw [if_pos hl] at he; cases he
    · rw [if_neg hl] at he
      rcases List.mem_append.mp he with h1 | h2
      · have : e = "    options:" := by simpa using h1
        subst this; rfl
      · obtain ⟨p, _, rfl⟩ := List.mem_map.mp h2
        rfl

/-- No `desc` attribute from the `dependsOn` block. -/
theorem dependsOnSeg_no_desc (o : Option (List String)) :
    ∀ e ∈ dependsOnSeg o, "    desc:".data.isPrefixOf e.data = false := by
  cases o with
  | none => intro e he; cases he
  | some l =>
    intro e he
    simp only [dependsOnSeg] at he
    by_cases hl : l.isEmpty = true
    · rw [if_pos hl] at he; cases he
    · rw [if_neg hl] at he
      rcases List.mem_append.mp he with h1 | h2
      · have : e = "    dependsOn:" := by simpa using h1
        subst this; rfl
      · obtain ⟨d, _, rfl⟩ := List.mem_map.mp h2
        rfl

/-- No emitted step line starts a step-level `desc` attribute. -/
theorem stepLines_no_desc (s : Step) :
    ∀ e ∈ stepLines s, "    desc:".data.isPrefixOf e.data = false := by
  intro e he
  simp only [stepLines, List.mem_append] at he
  rcases he with (((((((((hbase | hsd) | hsrc) | hfmt) | hpath) | hsql) | hcache) | hshow) | hschema) | hopts) | hdep
  · rcases List.mem_cons.mp hbase with rfl | hb2
    · rfl
    · have : e = "    kind: " ++ s.kind := by simpa using hb2
      subst this; rfl
  · exact optLine_no_desc_shortDesc _ e hsd
  · exact optLine_no_desc_source _ e hsrc
  · exact optLine_no_desc_format _ e hfmt
  · exact optLine_no_desc_path _ e hpath
  · exact sqlSeg_no_desc _ e hsql
  · exact boolLine_no_desc_cache _ e hcache
  · exact boolLine_no_desc_show _ e hshow
  · exact optLine_no_desc_schema _ e hschema
  · exact optionsSeg_no_desc _ e hopts
  · exact dependsOnSeg_no_desc _ e hdep

/-- The serializer's lines for normalized steps (and newline-free pipeline
metadata) are newline-free and never start a step-level `desc` attribute. -/
theorem allLines_facts (steps : List Step) (pid pdesc : Option String)
    (hs : ∀ s ∈ steps, normalizedStep s = true)
    (hpid : ∀ v, pid = some v → nlFree v = true)
    (hpd : ∀ v, pdesc = some v → nlFree v = true) :
    ∀ e ∈ allLines steps pid pdesc,
      nlFree e = true ∧ "    desc:".data.isPrefixOf e.data = false := by
  have hdfl : nlFree (defaultIfFalsy pid "my-pipeline") = true := by
    cases pid with
    | none => rfl
    | some v =>
      by_cases hv : (v != "") = true
      · have := hpid v rfl
        rw [defaultIfFalsy, if_pos hv]
        exact this
      · rw [defaultIfFalsy, if_neg hv]
        decide
  intro e he
  simp only [allLines, List.mem_append] at he
  rcases he with ((ha | hd) | hc) | hb
  · have : e = "id: " ++ defaultIfFalsy pid "my-pipeline" := by simpa using ha
    subst this
    constructor
    · rw [nlFree_append, hdfl]; decide
    · rfl
  · revert hd
    cases pdesc with
    | none => intro hd; cases hd
    | some d =>
      intro hd
      have hd2 : e ∈ (if (d != "") = true then ["desc: " ++ d] else []) := hd
      by_cases hdv : (d != "") = true
      · rw [if_pos hdv] at hd2
        have : e = "desc: " ++ d := by simpa using hd2
        subst this
        constructor
        · rw [nlFree_append, hpd d rfl]; decide
        · rfl
      · rw [if_neg hdv] at hd2
        cases hd2
  · rcases List.mem_cons.mp hc with rfl | hc2
    · exact ⟨rfl, rfl⟩
    · have : e = "steps:" := by simpa using hc2
      subst this
      exact ⟨rfl, rfl⟩
  · obtain ⟨ls, hls, hel⟩ := List.mem_flatten.mp hb
    obtain ⟨s, hsin, rfl⟩ := List.mem_map.mp hls
    rcases List.mem_append.mp hel with hstep | hblank
    · exact ⟨stepLines_nlFree s (hs s hsin) e hstep, stepLines_no_desc s e hstep⟩
    · have : e = "" := by simpa using hblank
      subst this
      exact ⟨rfl, rfl⟩

/-- C10: the serializer never emits a step-level `desc` attribute - for any
step list in normal form (and newline-free pipeline metadata) the output
contains no line starting `    desc:` (no `"\n    desc:"` substring, and the
first line is the pipeline `id:` line, not a `desc` attribute) - while
`parseStepBlock` does extract a step-level `desc:` line when present;
consequently a step's `desc` field is lost under serialize-then-parse, as
the last conjunct shows concretely. -/
theorem C10_step_desc_never_serialized_but_parsed :
    (∀ (steps : List Step) (pid pdesc : Option String),
        (∀ s ∈ steps, normalizedStep s = true) →
        (∀ v, pid = some v → nlFree v = true) →
        (∀ v, pdesc = some v → nlFree v = true) →
        containsSub (stepsToYaml steps pid pdesc).data "\n    desc:".data = false
        ∧ "    desc:".data.isPrefixOf (stepsToYaml steps pid pdesc).data = false)
    ∧ (parseStepBlock "  - id: a\n    kind: sql\n    desc: hello world".data).map (fun s => s.desc)
      = some (some "hello world")
    ∧ parseYamlSteps (stepsToYaml
        [{ id := "a", kind := "sql", desc := some "important note" }] none none)
      = [{ id := "a", kind := "sql" }] := by
  refine ⟨?_, rfl, rfl⟩
  intro steps pid pdesc hs hpid hpd
  have hL := allLines_facts steps pid pdesc hs hpid hpd
  have hnot : containsSub (joinNl ((allLines steps pid pdesc).map String.data))
      ('\n' :: "    desc:".data) = false := by
    refine joinNl_no_desc _ ?_ ?_
    · intro x hx
      obtain ⟨e, he, rfl⟩ := List.mem_map.mp hx
      exact (hL e he).1
    · intro x hx
      obtain ⟨e, he, rfl⟩ := List.mem_map.mp hx
      exact (hL e he).2
  constructor
  · exact containsSub_jsTrim _ _ hnot
  · obtain ⟨B, hB2⟩ :=
      (show ∃ B, joinNl ((allLines steps pid pdesc).map String.data)
          = ("id: " ++ defaultIfFalsy pid "my-pipeline").data ++ B from
        joinNl_head_decomp _ _)
    obtain ⟨r, hr⟩ := jsTrim_keeps_head 'i' [] 'd'
      (':' :: ' ' :: ((defaultIfFalsy pid "my-pipeline").data ++ B))
      (by decide) (by decide)
    have hr2 : jsTrim (("id: " ++ defaultIfFalsy pid "my-pipeline").data ++ B)
        = ('i' :: [] ++ ['d']) ++ r := hr
    have h7 : (stepsToYaml steps pid pdesc).data = ('i' :: [] ++ ['d']) ++ r := by
      show jsTrim (joinNl ((allLines steps pid pdesc).map String.data))
          = ('i' :: [] ++ ['d']) ++ r
      rw [hB2, hr2]
    rw [h7]
    rfl

/-- Witness for C10: the universal no-desc-output guarantee instantiated at a
concrete single-step list whose step has a `desc`, with pipeline id and
pipeline desc both set. -/
theorem C10_witness :
    containsSub (stepsToYaml
        [{ id := "a", kind := "sql", desc := some "d", sql := some "X" }]
        (some "p") (some "q")).data "\n    desc:".data = false
    ∧ "    desc:".data.isPrefixOf (stepsToYaml
        [{ id := "a", kind := "sql", desc := some "d", sql := some "X" }]
        (some "p") (some "q")).data = false :=
  C10_step_desc_never_serialized_but_parsed.1
    [{ id := "a", kind := "sql", desc := some "d", sql := some "X" }]
    (some "p") (some "q")
    (by decide)
    (by intro v hv; have h : v = "p" := (Option.some.inj hv).symm; subst h; decide)
    (by intro v hv; have h : v = "q" := (Option.some.inj hv).symm; subst h; decide)

end SpooqW
